import Mathlib

/-!
# Digital address relay: token cache and search-code handler

A shallow embedding of `main.go`: `getJapanPostToken` (the file-backed token
cache in front of the token endpoint) and `SearchCodeHandler` (validation of
the search code, token lookup, forwarding of the lookup response).

Modelling conventions.

* The operating system and the network are an explicit environment `Env`
  (one per call): it fixes the wall clock, the outcome of reading
  `credentials.json`, of `http.NewRequest`, of `client.Do` and of
  `os.WriteFile`.  The token file `access_token.json` is explicit state
  (`Option File`) threaded through the calls; every external operation is
  recorded, in order, in a list of `Event`s.
* File contents, message bodies and tokens are Lean strings (sequences of
  Unicode scalar values, that is, well-formed UTF-8 text).
* `time.Time` is a number of nanoseconds since the epoch, `time.Duration` a
  saturating signed 64-bit number of nanoseconds, Go `int` has 64 bits,
  `float64` values are the rationals they denote and every float64 operation
  rounds to nearest, ties to even.
* `encoding/json`, `regexp`, `time` and `os.WriteFile` are library code; the
  definitions below follow the behaviour of the Go standard library on the
  values this program gives them.
* `log.Printf` writes to the operator log only and is not modelled.
-/

namespace DigitalAddress

/-! ## float64 and time -/

/-- Nearest integer to `q`, ties to the even neighbour. -/
def roundHalfEven (q : ℚ) : ℤ :=
  let f := ⌊q⌋
  let r := q - f
  if r < 1 / 2 then f else if 1 / 2 < r then f + 1 else if f % 2 = 0 then f else f + 1

/-- Exponent of the binary64 binade of `q`: `2 ^ e ≤ |q| < 2 ^ (e + 1)`, and
`-1022` for the subnormal range. -/
def binade (q : ℚ) : ℤ :=
  max (Int.log 2 |q|) (-1022)

/-- Distance between neighbouring binary64 values in the binade of `q` (53
significant bits). -/
def ulp (q : ℚ) : ℚ :=
  2 ^ (binade q - 52)

/-- The binary64 value nearest to the rational `q` (round to nearest, ties to
even).  Overflow to infinity is not modelled: every value rounded by this
program is below `2 ^ 64` in magnitude. -/
def float64 (q : ℚ) : ℚ :=
  if q = 0 then 0 else roundHalfEven (q / ulp q) * ulp q

/-- Largest `time.Duration`, in nanoseconds. -/
def maxDuration : Int := 2 ^ 63 - 1

/-- Smallest `time.Duration`, in nanoseconds. -/
def minDuration : Int := -(2 ^ 63)

/-- Go `Time.Sub`: the difference `t - u` in nanoseconds, saturated to the
range of `Duration`. -/
def Sub (t u : Int) : Int :=
  if maxDuration < t - u then maxDuration
  else if t - u < minDuration then minDuration
  else t - u

/-- Go `time.Since(t)` for a time without monotonic reading (a file
modification time), with the wall clock at `now`. -/
def Since (now t : Int) : Int :=
  Sub now t

/-- Go `Duration.Seconds`: `float64(d / Second) + float64(d % Second) / 1e9`,
with truncating integer division and float64 arithmetic. -/
def Seconds (d : Int) : ℚ :=
  float64 (float64 (d.tdiv 1000000000) + float64 (float64 (d.tmod 1000000000) / 1000000000))

/-! ## encoding/json, decoding into `TokenResponse` -/

/-- A parsed JSON value; a number keeps its literal text. -/
inductive JValue
  | null
  | bool (b : Bool)
  | number (lit : List Char)
  | string (s : List Char)
  | array (elems : List JValue)
  | object (members : List (List Char × JValue))

/-- JSON insignificant whitespace. -/
def isSpace (c : Char) : Bool :=
  c == ' ' || c == '\t' || c == '\r' || c == '\n'

/-- Drop leading whitespace. -/
def skipSpace : List Char → List Char
  | [] => []
  | c :: cs => if isSpace c then skipSpace cs else c :: cs

/-- Value of a hexadecimal digit. -/
def hexVal (c : Char) : Option Nat :=
  if '0' ≤ c ∧ c ≤ '9' then some (c.toNat - 48)
  else if 'a' ≤ c ∧ c ≤ 'f' then some (c.toNat - 87)
  else if 'A' ≤ c ∧ c ≤ 'F' then some (c.toNat - 55)
  else none

/-- Four hexadecimal digits of a `\u` escape. -/
def getu4 : List Char → Option (Nat × List Char)
  | a :: b :: c :: d :: rest =>
    match hexVal a, hexVal b, hexVal c, hexVal d with
    | some x, some y, some z, some w => some (((x * 16 + y) * 16 + z) * 16 + w, rest)
    | _, _, _, _ => none
  | _ => none

/-- One element of a string literal: a character, or the UTF-16 code unit of
a `\u` escape. -/
inductive Piece
  | rune (c : Char)
  | unit (u : Nat)

/-- Scan a string literal after its opening quote: the pieces up to the
closing quote and the input after it.  Control characters and unknown escapes
are errors.  The fuel is the number of characters that may be consumed. -/
def scanString : Nat → List Char → List Piece → Option (List Piece × List Char)
  | 0, _, _ => none
  | _ + 1, [], _ => none
  | fuel + 1, c :: rest, acc =>
    if c = '"' then some (acc.reverse, rest)
    else if c = '\\' then
      match rest with
      | [] => none
      | e :: rest2 =>
        if e = '"' then scanString fuel rest2 (.rune '"' :: acc)
        else if e = '\\' then scanString fuel rest2 (.rune '\\' :: acc)
        else if e = '/' then scanString fuel rest2 (.rune '/' :: acc)
        else if e = 'b' then scanString fuel rest2 (.rune (Char.ofNat 8) :: acc)
        else if e = 'f' then scanString fuel rest2 (.rune (Char.ofNat 12) :: acc)
        else if e = 'n' then scanString fuel rest2 (.rune '\n' :: acc)
        else if e = 'r' then scanString fuel rest2 (.rune '\r' :: acc)
        else if e = 't' then scanString fuel rest2 (.rune '\t' :: acc)
        else if e = 'u' then
          match getu4 rest2 with
          | some (u, rest3) => scanString fuel rest3 (.unit u :: acc)
          | none => none
        else none
    else if c.toNat < 32 then none
    else scanString fuel rest (.rune c :: acc)

/-- Decode the pieces of a string literal: a high surrogate escape followed
by a low surrogate escape is one character, any other surrogate is U+FFFD.
The first argument is a pending high surrogate. -/
def unquote : Option Nat → List Piece → List Char
  | none, [] => []
  | some _, [] => [Char.ofNat 0xFFFD]
  | none, .rune c :: ps => c :: unquote none ps
  | some _, .rune c :: ps => Char.ofNat 0xFFFD :: c :: unquote none ps
  | none, .unit u :: ps =>
    if 0xD800 ≤ u ∧ u < 0xDC00 then unquote (some u) ps
    else if 0xDC00 ≤ u ∧ u < 0xE000 then Char.ofNat 0xFFFD :: unquote none ps
    else Char.ofNat u :: unquote none ps
  | some hi, .unit u :: ps =>
    if 0xDC00 ≤ u ∧ u < 0xE000 then
      Char.ofNat ((hi - 0xD800) * 1024 + (u - 0xDC00) + 0x10000) :: unquote none ps
    else if 0xD800 ≤ u ∧ u < 0xDC00 then Char.ofNat 0xFFFD :: unquote (some u) ps
    else Char.ofNat 0xFFFD :: Char.ofNat u :: unquote none ps

/-- Decimal digit. -/
def isDigit (c : Char) : Bool := '0' ≤ c ∧ c ≤ '9'

/-- Longest run of digits and the input after it. -/
def takeDigits : List Char → List Char × List Char
  | [] => ([], [])
  | c :: cs =>
    if isDigit c then ((takeDigits cs).1.cons c, (takeDigits cs).2) else ([], c :: cs)

/-- Scan a JSON number: `-? (0 | [1-9][0-9]*) (. [0-9]+)? ([eE] [+-]? [0-9]+)?`. -/
def scanNumber (cs : List Char) : Option (List Char × List Char) :=
  let (sign, cs1) := match cs with
    | '-' :: r => (['-'], r)
    | _ => ([], cs)
  match cs1 with
  | [] => none
  | c :: r =>
    if isDigit c then
      let (ip, r1) := if c = '0' then ([c], r) else (c :: (takeDigits r).1, (takeDigits r).2)
      let fracPart : Option (List Char × List Char) := match r1 with
        | '.' :: r2 =>
          if (takeDigits r2).1 = [] then none
          else some ('.' :: (takeDigits r2).1, (takeDigits r2).2)
        | _ => some ([], r1)
      match fracPart with
      | none => none
      | some (fp, r3) =>
        match r3 with
        | e :: r4 =>
          if e = 'e' ∨ e = 'E' then
            let (es, r5) := match r4 with
              | '+' :: r => (['+'], r)
              | '-' :: r => (['-'], r)
              | _ => ([], r4)
            if (takeDigits r5).1 = [] then none
            else some (sign ++ ip ++ fp ++ [e] ++ es ++ (takeDigits r5).1, (takeDigits r5).2)
          else some (sign ++ ip ++ fp, r3)
        | [] => some (sign ++ ip ++ fp, r3)
    else none

/-- Deepest nesting of arrays and objects the decoder accepts. -/
def maxNestingDepth : Nat := 10000

mutual
/-- Parse one JSON value at the head of the input.  Every call consumes at
least one character, so a fuel above the length of the input is never
exhausted. -/
def parseValue : Nat → Nat → List Char → Option (JValue × List Char)
  | 0, _, _ => none
  | fuel + 1, depth, cs =>
    match cs with
    | [] => none
    | c :: rest =>
      if c = '{' then
        if maxNestingDepth ≤ depth then none
        else match skipSpace rest with
          | '}' :: rest2 => some (.object [], rest2)
          | rest2 => parseMembers fuel (depth + 1) rest2 []
      else if c = '[' then
        if maxNestingDepth ≤ depth then none
        else match skipSpace rest with
          | ']' :: rest2 => some (.array [], rest2)
          | rest2 => parseElems fuel (depth + 1) rest2 []
      else if c = '"' then
        match scanString (rest.length + 1) rest [] with
        | some (ps, rest2) => some (.string (unquote none ps), rest2)
        | none => none
      else if c = '-' ∨ isDigit c then
        match scanNumber cs with
        | some (lit, rest2) => some (.number lit, rest2)
        | none => none
      else match cs with
        | 't' :: 'r' :: 'u' :: 'e' :: rest2 => some (.bool true, rest2)
        | 'f' :: 'a' :: 'l' :: 's' :: 'e' :: rest2 => some (.bool false, rest2)
        | 'n' :: 'u' :: 'l' :: 'l' :: rest2 => some (.null, rest2)
        | _ => none
/-- Parse the members of an object, the input standing at a key. -/
def parseMembers : Nat → Nat → List Char → List (List Char × JValue) →
    Option (JValue × List Char)
  | 0, _, _, _ => none
  | fuel + 1, depth, cs, acc =>
    match cs with
    | '"' :: rest =>
      match scanString (rest.length + 1) rest [] with
      | none => none
      | some (ps, r1) =>
        match skipSpace r1 with
        | ':' :: r2 =>
          match parseValue fuel depth (skipSpace r2) with
          | none => none
          | some (v, r3) =>
            match skipSpace r3 with
            | ',' :: r4 => parseMembers fuel depth (skipSpace r4) (acc ++ [(unquote none ps, v)])
            | '}' :: r4 => some (.object (acc ++ [(unquote none ps, v)]), r4)
            | _ => none
        | _ => none
    | _ => none
/-- Parse the elements of an array, the input standing at an element. -/
def parseElems : Nat → Nat → List Char → List JValue → Option (JValue × List Char)
  | 0, _, _, _ => none
  | fuel + 1, depth, cs, acc =>
    match parseValue fuel depth cs with
    | none => none
    | some (v, r1) =>
      match skipSpace r1 with
      | ',' :: r2 => parseElems fuel depth (skipSpace r2) (acc ++ [v])
      | ']' :: r2 => some (.array (acc ++ [v]), r2)
      | _ => none
end

/-- Parse a whole JSON text: one value between optional whitespace. -/
def jsonParse (data : List Char) : Option JValue :=
  match parseValue (data.length + 1) 0 (skipSpace data) with
  | some (v, rest) => if skipSpace rest = [] then some v else none
  | none => none

/-- 日本郵便APIのトークンレスポンス (`main.go`, `TokenResponse`). -/
structure TokenResponse where
  Token : String
  ExpiresIn : Int
deriving DecidableEq, Repr

/-- Value of a run of decimal digits. -/
def digitsToNat : List Char → Nat → Option Nat
  | [], acc => some acc
  | c :: cs, acc => if isDigit c then digitsToNat cs (acc * 10 + (c.toNat - 48)) else none

/-- Go `strconv.ParseInt(lit, 10, 64)` on a JSON number literal: an optional
minus sign and digits only, within the signed 64-bit range. -/
def ParseInt (lit : List Char) : Option Int :=
  match lit with
  | '-' :: ds =>
    match digitsToNat ds 0 with
    | some n => if ds ≠ [] ∧ n ≤ 2 ^ 63 then some (-(n : Int)) else none
    | none => none
  | ds =>
    match digitsToNat ds 0 with
    | some n => if ds ≠ [] ∧ n < 2 ^ 63 then some (n : Int) else none
    | none => none

/-- Case folding of the characters that fold to an ASCII letter: the upper
case letters, the Kelvin sign and the long s. -/
def foldRune (c : Char) : Char :=
  if 'A' ≤ c ∧ c ≤ 'Z' then Char.ofNat (c.toNat + 32)
  else if c = Char.ofNat 0x212A then 'k'
  else if c = Char.ofNat 0x17F then 's'
  else c

/-- Case-insensitive comparison of an object key with an ASCII field name. -/
def equalFold (key name : List Char) : Bool :=
  key.map foldRune = name.map foldRune

/-- The fields of `TokenResponse`. -/
inductive Field
  | Token
  | ExpiresIn
deriving DecidableEq

/-- The field an object key selects: the exact JSON name first, a
case-insensitive match otherwise. -/
def findField (key : List Char) : Option Field :=
  if key = "token".data then some .Token
  else if key = "expires_in".data then some .ExpiresIn
  else if equalFold key "token".data then some .Token
  else if equalFold key "expires_in".data then some .ExpiresIn
  else none

/-- Store a JSON value into a field; `none` is a type mismatch.  `null`
leaves the field as it is. -/
def storeField (f : Field) (v : JValue) (r : TokenResponse) : Option TokenResponse :=
  match f, v with
  | _, .null => some r
  | .Token, .string s => some { r with Token := String.mk s }
  | .ExpiresIn, .number lit =>
    match ParseInt lit with
    | some n => some { r with ExpiresIn := n }
    | none => none
  | _, _ => none

/-- Decode the members of an object in order; unknown keys are skipped, a
type mismatch is remembered and decoding goes on. -/
def decodeMembers : List (List Char × JValue) → TokenResponse → Bool → TokenResponse × Bool
  | [], r, bad => (r, bad)
  | (key, v) :: ms, r, bad =>
    match findField key with
    | none => decodeMembers ms r bad
    | some f =>
      match storeField f v r with
      | some r2 => decodeMembers ms r2 bad
      | none => decodeMembers ms r true

/-- The two kinds of error of `json.Unmarshal`. -/
inductive JsonError
  | malformed
  | typeMismatch
deriving DecidableEq, Repr

/-- Go `json.Unmarshal(data, &tokenResp)` into a zero `TokenResponse`. -/
def jsonUnmarshal (data : String) : Except JsonError TokenResponse :=
  match jsonParse data.data with
  | none => .error .malformed
  | some .null => .ok ⟨"", 0⟩
  | some (.object ms) =>
    match decodeMembers ms ⟨"", 0⟩ false with
    | (r, false) => .ok r
    | (_, true) => .error .typeMismatch
  | some _ => .error .typeMismatch

/-! ## regexp -/

/-- The regular expressions the program uses: empty-width assertions for the
beginning and the end of the text, a character class, concatenation and
bounded repetition `r{min,max}`. -/
inductive Regexp
  | beginText
  | endText
  | charClass (p : Char → Bool)
  | concat (a b : Regexp)
  | rep (r : Regexp) (min max : Nat)

/-- End positions of exactly `n` consecutive matches of `f` from `pos`. -/
def exactly (f : Nat → List Nat) : Nat → Nat → List Nat
  | 0, pos => [pos]
  | n + 1, pos => (f pos).flatMap (exactly f n)

/-- End positions of at most `n` consecutive matches of `f` from `pos`,
longest first. -/
def upTo (f : Nat → List Nat) : Nat → Nat → List Nat
  | 0, pos => [pos]
  | n + 1, pos => (f pos).flatMap (upTo f n) ++ [pos]

/-- All positions at which a match of the expression that starts at `pos`
can end. -/
def Regexp.ends (text : List Char) : Regexp → Nat → List Nat
  | .beginText, pos => if pos = 0 then [pos] else []
  | .endText, pos => if pos = text.length then [pos] else []
  | .charClass p, pos =>
    match text.get? pos with
    | some c => if p c then [pos + 1] else []
    | none => []
  | .concat a b, pos => (a.ends text pos).flatMap (fun mid => b.ends text mid)
  | .rep r min max, pos =>
    (exactly (fun p => r.ends text p) min pos).flatMap (upTo (fun p => r.ends text p) (max - min))

/-- Go `regexp.MatchString` for a compiled pattern: whether the text
contains a match, starting anywhere. -/
def MatchString (re : Regexp) (s : String) : Bool :=
  (List.range (s.data.length + 1)).any (fun start => !(re.ends s.data start).isEmpty)

/-- The Perl class `\w` of Go regular expressions: `[0-9A-Za-z_]`, ASCII only. -/
def isWordChar (c : Char) : Bool :=
  ('0' ≤ c ∧ c ≤ '9') ∨ ('A' ≤ c ∧ c ≤ 'Z') ∨ ('a' ≤ c ∧ c ≤ 'z') ∨ c = '_'

/-- The pattern `^\w{3,7}$` of `SearchCodeHandler`. -/
def searchCodePattern : Regexp :=
  .concat .beginText (.concat (.rep (.charClass isWordChar) 3 7) .endText)

/-- The character class `[A-Za-z0-9_]` of the specified key pattern. -/
def isKeyChar (c : Char) : Bool :=
  ('A' ≤ c ∧ c ≤ 'Z') ∨ ('a' ≤ c ∧ c ≤ 'z') ∨ ('0' ≤ c ∧ c ≤ '9') ∨ c = '_'

/-- The specified key pattern `^[A-Za-z0-9_]{3,7}$`, read directly: the whole
string is three to seven characters of the class. -/
def validSearchKey (s : String) : Bool :=
  3 ≤ s.data.length ∧ s.data.length ≤ 7 ∧ s.data.all isKeyChar

/-! ## Operating system and network -/

/-- The token file `access_token.json` when it exists: content, modification
time in nanoseconds, and whether `os.ReadFile` can read it. -/
structure File where
  data : String
  modTime : Int
  readable : Bool
deriving DecidableEq, Repr

/-- HTTP header fields, in the order they were set. -/
abbrev Header := List (String × String)

/-- Go `Header.Set`: replace the values of a key. -/
def Header.Set (h : Header) (key value : String) : Header :=
  h.filter (fun kv => kv.1 ≠ key) ++ [(key, value)]

/-- An outgoing request, as built by `http.NewRequest` and `Header.Set`. -/
structure HttpRequest where
  Method : String
  URL : String
  Header : Header
  Body : Option String
deriving DecidableEq, Repr

/-- A response returned by `client.Do`: the status code, the bytes its body
delivers and the error, if any, that ends the body instead of end of file. -/
structure HttpResponse where
  StatusCode : Int
  Body : String
  bodyErr : Option String
deriving DecidableEq, Repr

/-- Outcome of `os.WriteFile`: success; failure to open the file, which
leaves it as it was; or failure after the file was truncated, which leaves
the first `written` characters of the data. -/
inductive WriteOutcome
  | ok
  | openFailed (cause : String)
  | writeFailed (cause : String) (written : Nat)
deriving DecidableEq, Repr

/-- What the operating system and the network answer during one call. -/
structure Env where
  /-- wall clock read by `time.Since` -/
  now : Int
  /-- result of `os.ReadFile("credentials.json")` -/
  credentials : Except String String
  /-- the error of `http.NewRequest(method, url, body)`, if any -/
  newRequest : String → String → Option String
  /-- result of `client.Do(req)` -/
  clientDo : HttpRequest → Except String HttpResponse
  /-- outcome of `os.WriteFile` on the token file -/
  write : WriteOutcome
  /-- modification time a write gives the token file -/
  writeTime : Int

/-- The external operations a call performs. -/
inductive Event
  | stat (name : String)
  | readFile (name : String)
  | writeFile (name : String) (data : String)
  | httpDo (req : HttpRequest)
deriving DecidableEq, Repr

/-- The requests sent to the network, in order. -/
def upstreamRequests : List Event → List HttpRequest
  | [] => []
  | .httpDo req :: evs => req :: upstreamRequests evs
  | _ :: evs => upstreamRequests evs

/-- Go `os.WriteFile(name, data, 0644)` on the token file: the error it
returns and the file afterwards.  A new file is readable; an existing file
keeps its permissions. -/
def WriteFile (env : Env) (file : Option File) (data : String) : Option String × Option File :=
  let readable := match file with
    | some f => f.readable
    | none => true
  match env.write with
  | .ok => (none, some ⟨data, env.writeTime, readable⟩)
  | .openFailed cause => (some cause, file)
  | .writeFailed cause written =>
    (some cause, some ⟨String.mk (data.data.take written), env.writeTime, readable⟩)

/-! ## getJapanPostToken -/

/-- The errors `getJapanPostToken` returns, one per `fmt.Errorf` of the
source, with what the message is built from. -/
inductive TokenError
  /-- 認証情報ファイル読み込みエラー -/
  | credentialsRead (cause : String)
  /-- トークンリクエスト作成エラー -/
  | requestCreate (cause : String)
  /-- トークンAPIリクエストエラー -/
  | requestSend (cause : String)
  /-- トークン取得エラー: ステータスコード, レスポンス -/
  | status (code : Int) (body : String)
  /-- トークンレスポンス読み込みエラー -/
  | bodyRead (cause : String)
  /-- トークン保存エラー -/
  | save (cause : String)
  /-- トークンJSONパースエラー -/
  | parse (cause : JsonError)
deriving DecidableEq, Repr

/-- Result of one call of `getJapanPostToken`: the returned pair
`(string, error)`, the token file afterwards and the external operations
performed. -/
structure TokenOutcome where
  token : String
  err : Option TokenError
  tokenFile : Option File
  events : List Event
deriving DecidableEq, Repr

/-- Name of the token file. -/
def tokenFilename : String := "access_token.json"

/-- URL of the token endpoint. -/
def tokenURL : String := "https://api.da.pf.japanpost.jp/api/v1/j/token"

/-- The freshness test of line 105:
`time.Since(modTime).Seconds() < float64(tokenResp.ExpiresIn)`. -/
def isFresh (now modTime expiresIn : Int) : Bool :=
  Seconds (Since now modTime) < float64 expiresIn

/-- Lines 97-111 of `getJapanPostToken`: the token of the persisted record
when the file exists, is readable, parses and is fresh, with the file
operations performed. -/
def cachedToken (env : Env) (file : Option File) : Option String × List Event :=
  match file with
  | none => (none, [.stat tokenFilename])
  | some f =>
    if f.readable then
      match jsonUnmarshal f.data with
      | .ok tokenResp =>
        if isFresh env.now f.modTime tokenResp.ExpiresIn then
          (some tokenResp.Token, [.stat tokenFilename, .readFile tokenFilename, .stat tokenFilename])
        else (none, [.stat tokenFilename, .readFile tokenFilename, .stat tokenFilename])
      | .error _ => (none, [.stat tokenFilename, .readFile tokenFilename])
    else (none, [.stat tokenFilename, .readFile tokenFilename])

/-- The token request of lines 118-124. -/
def tokenRequest (credentials : String) : HttpRequest :=
  let req : HttpRequest := ⟨"POST", tokenURL, [], some credentials⟩
  let req := { req with Header := req.Header.Set "Content-Type" "application/json" }
  { req with Header := req.Header.Set "User-Agent" "Go-http-client/1.1" }

/-- 日本郵便APIのアクセストークンを取得 (`main.go`, lines 93-155). -/
def getJapanPostToken (env : Env) (file : Option File) : TokenOutcome :=
  match cachedToken env file with
  | (some token, evs) => ⟨token, none, file, evs⟩
  | (none, evs) =>
    match env.credentials with
    | .error e => ⟨"", some (.credentialsRead e), file, evs ++ [.readFile "credentials.json"]⟩
    | .ok credentials =>
      let evs := evs ++ [.readFile "credentials.json"]
      match env.newRequest "POST" tokenURL with
      | some e => ⟨"", some (.requestCreate e), file, evs⟩
      | none =>
        let req := tokenRequest credentials
        let evs := evs ++ [.httpDo req]
        match env.clientDo req with
        | .error e => ⟨"", some (.requestSend e), file, evs⟩
        | .ok resp =>
          if resp.StatusCode ≠ 200 then
            ⟨"", some (.status resp.StatusCode resp.Body), file, evs⟩
          else
            match resp.bodyErr with
            | some e => ⟨"", some (.bodyRead e), file, evs⟩
            | none =>
              let body := resp.Body
              let evs := evs ++ [.writeFile tokenFilename body]
              match WriteFile env file body with
              | (some e, file2) => ⟨"", some (.save e), file2, evs⟩
              | (none, file2) =>
                match jsonUnmarshal body with
                | .error e => ⟨"", some (.parse e), file2, evs⟩
                | .ok tokenResp => ⟨tokenResp.Token, none, file2, evs⟩

/-- What a call that reuses the persisted record `f` does: it returns the
stored token without error after `Stat`, `ReadFile` and `Stat` of the token
file, and nothing else happens. -/
def reusedOutcome (f : File) (token : String) : TokenOutcome :=
  ⟨token, none, some f,
    [.stat tokenFilename, .readFile tokenFilename, .stat tokenFilename]⟩

/-- Consecutive calls of `getJapanPostToken`, one environment per call, the
token file threaded from each call to the next. -/
def getJapanPostTokenCalls : List Env → Option File → List TokenOutcome
  | [], _ => []
  | env :: envs, file =>
    getJapanPostToken env file :: getJapanPostTokenCalls envs (getJapanPostToken env file).tokenFile

/-! ## SearchCodeHandler -/

/-- The parts of the incoming request the handler reads: `r.Method`,
`r.URL.Path` and `r.URL.Query()`. -/
structure Request where
  Method : String
  Path : String
  Query : List (String × List String)
deriving DecidableEq, Repr

/-- What the handler did: the header fields, status code and body written to
the `http.ResponseWriter`, the token file afterwards and the external
operations performed. -/
structure HandlerOutcome where
  header : Header
  status : Int
  body : String
  tokenFile : Option File
  events : List Event
deriving DecidableEq, Repr

/-- Go `strings.TrimPrefix`. -/
def TrimPrefix (s pre : String) : String :=
  if pre.data.isPrefixOf s.data then String.mk (s.data.drop pre.data.length) else s

/-- 検索コード取得 (lines 37-46): the first `search_code` query value when
there is one, the URL path without its leading slash otherwise. -/
def searchCodeOf (r : Request) : String :=
  match r.Query.lookup "search_code" with
  | some (sc :: _) => sc
  | _ => TrimPrefix r.Path "/"

/-- The lookup request of lines 64-74. -/
def lookupRequest (searchCode token : String) : HttpRequest :=
  let apiURL := "https://api.da.pf.japanpost.jp/api/v1/searchcode/" ++ searchCode
  let req : HttpRequest := ⟨"GET", apiURL, [], none⟩
  let req := { req with Header := req.Header.Set "User-Agent" "Go-http-client/1.1" }
  { req with Header := req.Header.Set "Authorization" ("Bearer " ++ token) }

/-- The CORS header fields set on every response (lines 27-29). -/
def corsHeader : Header :=
  Header.Set (Header.Set (Header.Set [] "Access-Control-Allow-Origin" "*")
    "Access-Control-Allow-Methods" "*") "Access-Control-Allow-Headers" "*"

/-- 日本郵便のデジタル住所APIを使用して住所を検索するハンドラー
(`main.go`, lines 25-90). -/
def SearchCodeHandler (env : Env) (r : Request) (file : Option File) : HandlerOutcome :=
  let header := corsHeader
  if r.Method ≠ "GET" then ⟨header, 204, "", file, []⟩
  else
    let searchCode := searchCodeOf r
    if !MatchString searchCodePattern searchCode then ⟨header, 400, "", file, []⟩
    else
      let tok := getJapanPostToken env file
      match tok.err with
      | some _ => ⟨header, 500, "", tok.tokenFile, tok.events⟩
      | none =>
        let req := lookupRequest searchCode tok.token
        match env.newRequest "GET" req.URL with
        | some _ => ⟨header, 500, "", tok.tokenFile, tok.events⟩
        | none =>
          match env.clientDo req with
          | .error _ => ⟨header, 500, "", tok.tokenFile, tok.events ++ [.httpDo req]⟩
          | .ok resp =>
            ⟨header.Set "Content-Type" "application/json", resp.StatusCode, resp.Body,
              tok.tokenFile, tok.events ++ [.httpDo req]⟩

/-! ## Concrete inputs -/

/-- The token response `{"token":"T","expires_in":3600}`. -/
def sampleBody : String := "\x7b\"token\":\"T\",\"expires_in\":3600\x7d"

/-- An environment in which every operation succeeds: the clock stands at
100 s, the credentials file holds `creds`, the token endpoint answers 200
with `sampleBody` and the lookup endpoint answers 404 with `not found`. -/
def sampleEnv : Env where
  now := 100000000000
  credentials := .ok "creds"
  newRequest := fun _ _ => none
  clientDo := fun req =>
    if req.URL = tokenURL then .ok ⟨200, sampleBody, none⟩ else .ok ⟨404, "not found", none⟩
  write := .ok
  writeTime := 100000000000

/-- A readable token file holding `sampleBody`, written at 60 s. -/
def sampleFile : File := ⟨sampleBody, 60000000000, true⟩

/-- A GET request for the path `/abc`. -/
def sampleRequest : Request := ⟨"GET", "/abc", []⟩

/-- The clock stands 16777216.999999999 s after the modification time of
`roundingFile`. -/
def roundingEnv : Env := { sampleEnv with now := 1716777216999999999 }

/-- A readable token file written 1700000000 s after the epoch whose record
declares `expires_in = 16777217`. -/
def roundingFile : File :=
  ⟨"\x7b\"token\":\"T\",\"expires_in\":16777217\x7d", 1700000000000000000, true⟩

/-- Opening the token file for writing fails. -/
def saveFailEnv : Env := { sampleEnv with write := .openFailed "permission denied" }

/-- The credentials file cannot be read. -/
def noCredentialsEnv : Env := { sampleEnv with credentials := .error "no such file" }

/-- A readable token file whose content is not JSON. -/
def corruptFile : File := ⟨"not json", 0, true⟩

/-- The clock stands at 200 s. -/
def laterEnv : Env := { sampleEnv with now := 200000000000 }

/-- The body `{"expires_in":3600}`: a JSON object without a token field. -/
def missingTokenBody : String := "\x7b\"expires_in\":3600\x7d"

/-- The token endpoint answers 200 with `missingTokenBody`. -/
def missingTokenEnv : Env :=
  { sampleEnv with clientDo := fun _ => .ok ⟨200, missingTokenBody, none⟩ }

/-- The token endpoint answers 200 with a body that is not JSON. -/
def badBodyEnv : Env := { sampleEnv with clientDo := fun _ => .ok ⟨200, "not json", none⟩ }

/-! ## Rounding to float64 -/

/-- An integer rounds to itself. -/
theorem roundHalfEven_intCast (n : ℤ) : roundHalfEven (n : ℚ) = n := by
  simp [roundHalfEven]

/-- Rounding does not go below an integer lower bound. -/
theorem le_roundHalfEven {a : ℤ} {q : ℚ} (h : (a : ℚ) ≤ q) : a ≤ roundHalfEven q := by
  have hf : a ≤ ⌊q⌋ := Int.le_floor.mpr h
  unfold roundHalfEven
  simp only
  split_ifs <;> omega

/-- Rounding does not go above an integer upper bound. -/
theorem roundHalfEven_le {b : ℤ} {q : ℚ} (h : q ≤ (b : ℚ)) : roundHalfEven q ≤ b := by
  unfold roundHalfEven
  simp only
  by_cases hq : q = b
  · subst hq; simp
  · have hlt : q < b := lt_of_le_of_ne h hq
    have hf : ⌊q⌋ < b := Int.floor_lt.mpr hlt
    split_ifs <;> omega

/-- A rational within one half of an integer rounds to it. -/
theorem roundHalfEven_eq_of {q : ℚ} {n : ℤ} (h1 : (n : ℚ) - 1 / 2 < q) (h2 : q < n + 1 / 2) :
    roundHalfEven q = n := by
  unfold roundHalfEven
  simp only
  by_cases hn : (n : ℚ) ≤ q
  · have hf : ⌊q⌋ = n := by
      rw [Int.floor_eq_iff]; constructor
      · exact hn
      · linarith
    rw [hf]
    have : q - n < 1 / 2 := by linarith
    simp only [this, if_true]
  · push_neg at hn
    have hf : ⌊q⌋ = n - 1 := by
      rw [Int.floor_eq_iff]; constructor
      · push_cast; linarith
      · push_cast; linarith
    rw [hf]
    have h3 : ¬ (q - ((n - 1 : ℤ) : ℚ) < 1 / 2) := by push_cast; linarith
    have h4 : (1 : ℚ) / 2 < q - ((n - 1 : ℤ) : ℚ) := by push_cast; linarith
    simp only [h3, h4, if_true, if_false]
    omega

theorem ulp_pos (q : ℚ) : 0 < ulp q := by
  unfold ulp; positivity

/-- A value of the grid of `q` above `q` is above its float64 value. -/
theorem float64_le_of_le {q : ℚ} {B : ℤ} (h : q ≤ B * ulp q) : float64 q ≤ B * ulp q := by
  unfold float64
  split_ifs with hq
  · subst hq; exact h
  · have hu := ulp_pos q
    have h1 : q / ulp q ≤ (B : ℚ) := by rw [div_le_iff₀ hu]; exact h
    have h2 := roundHalfEven_le h1
    have h3 : ((roundHalfEven (q / ulp q) : ℤ) : ℚ) ≤ (B : ℚ) := by exact_mod_cast h2
    exact mul_le_mul_of_nonneg_right h3 hu.le

/-- A value of the grid of `q` below `q` is below its float64 value. -/
theorem le_float64_of_le {q : ℚ} {A : ℤ} (h : A * ulp q ≤ q) : A * ulp q ≤ float64 q := by
  unfold float64
  split_ifs with hq
  · subst hq; exact h
  · have hu := ulp_pos q
    have h1 : (A : ℚ) ≤ q / ulp q := by rw [le_div_iff₀ hu]; exact h
    have h2 := le_roundHalfEven h1
    have h3 : (A : ℚ) ≤ ((roundHalfEven (q / ulp q) : ℤ) : ℚ) := by exact_mod_cast h2
    exact mul_le_mul_of_nonneg_right h3 hu.le


theorem binade_le {q : ℚ} {t : ℤ} (hq : q ≠ 0) (ht : -1022 ≤ t) (h : |q| < 2 ^ (t + 1)) :
    binade q ≤ t := by
  unfold binade
  have hpos : 0 < |q| := abs_pos.mpr hq
  have h2 : |q| < ((2 : ℕ) : ℚ) ^ (t + 1) := by exact_mod_cast h
  have : Int.log 2 |q| < t + 1 := (Int.lt_zpow_iff_log_lt (by norm_num) hpos).mp h2
  exact max_le (by omega) ht

theorem le_binade {q : ℚ} {t : ℤ} (hq : q ≠ 0) (h : 2 ^ t ≤ |q|) : t ≤ binade q := by
  unfold binade
  have hpos : 0 < |q| := abs_pos.mpr hq
  have h2 : ((2 : ℕ) : ℚ) ^ t ≤ |q| := by exact_mod_cast h
  have : t ≤ Int.log 2 |q| := (Int.zpow_le_iff_le_log (by norm_num) hpos).mp h2
  exact le_trans this (le_max_left _ _)

/-- A power of two not below the ulp of `q` is on the grid of `q`. -/
theorem zpow_grid (q : ℚ) (t : ℤ) (h : binade q - 52 ≤ t) :
    (2 : ℚ) ^ t = ((2 ^ (t - (binade q - 52)).toNat : ℤ) : ℚ) * ulp q := by
  unfold ulp
  push_cast
  rw [← zpow_natCast, Int.toNat_of_nonneg (by omega), ← zpow_add₀ (by norm_num)]
  congr 1
  ring

theorem float64_eq_self {q : ℚ} {A : ℤ} (h : q = A * ulp q) : float64 q = q := by
  have h1 := float64_le_of_le (q := q) (B := A) (le_of_eq h)
  have h2 := le_float64_of_le (q := q) (A := A) (le_of_eq h.symm)
  linarith

/-- Integers below `2 ^ 53` in magnitude are float64 values. -/
theorem float64_intCast (n : ℤ) (h : |n| < 2 ^ 53) : float64 (n : ℚ) = n := by
  by_cases hn : n = 0
  · subst hn; simp [float64]
  · have hq : (n : ℚ) ≠ 0 := by exact_mod_cast hn
    have hb : binade (n : ℚ) ≤ 52 := by
      apply binade_le hq (by norm_num)
      have h3 : ((|n| : ℤ) : ℚ) < ((2 ^ 53 : ℤ) : ℚ) := by exact_mod_cast h
      have h4 : (2 : ℚ) ^ ((52 : ℤ) + 1) = ((2 ^ 53 : ℤ) : ℚ) := by norm_num
      rw [h4]
      simpa using h3
    have hg := zpow_grid (n : ℚ) 0 (by omega)
    apply float64_eq_self (A := n * 2 ^ (0 - (binade (n : ℚ) - 52)).toNat)
    push_cast
    push_cast at hg
    rw [mul_assoc, ← hg]
    simp


theorem float64_zero : float64 0 = 0 := by
  simp [float64]

/-- The float64 quotient `nsec / 1e9` of a nanosecond count below one second. -/
theorem float64_frac_bounds (n : ℤ) (h0 : 0 ≤ n) (h1 : n < 1000000000) :
    0 ≤ float64 ((n : ℚ) / 1000000000) ∧
      float64 ((n : ℚ) / 1000000000) ≤ 1 - 2 ^ (-30 : ℤ) := by
  by_cases hq : (n : ℚ) / 1000000000 = 0
  · rw [hq, float64_zero]; norm_num
  · have hn0 : (0 : ℚ) ≤ n := by exact_mod_cast h0
    have hn1 : (n : ℚ) ≤ 999999999 := by
      have : n ≤ 999999999 := by omega
      exact_mod_cast this
    have hq0 : 0 ≤ (n : ℚ) / 1000000000 := by positivity
    have hq1 : (n : ℚ) / 1000000000 ≤ 1 - 2 ^ (-30 : ℤ) := by
      rw [div_le_iff₀ (by norm_num)]
      norm_num
      linarith
    have hb : binade ((n : ℚ) / 1000000000) ≤ -1 := by
      apply binade_le hq (by norm_num)
      rw [abs_of_nonneg hq0]
      have : (1 : ℚ) - 2 ^ (-30 : ℤ) < 2 ^ ((-1 : ℤ) + 1) := by norm_num
      linarith
    have g0 := zpow_grid ((n : ℚ) / 1000000000) 0 (by omega)
    have g30 := zpow_grid ((n : ℚ) / 1000000000) (-30) (by omega)
    constructor
    · have lo := le_float64_of_le (q := (n : ℚ) / 1000000000) (A := 0) (by simpa using hq0)
      simpa using lo
    · have hi := float64_le_of_le (q := (n : ℚ) / 1000000000)
        (B := 2 ^ (0 - (binade ((n : ℚ) / 1000000000) - 52)).toNat -
          2 ^ (-30 - (binade ((n : ℚ) / 1000000000) - 52)).toNat)
        (by push_cast; push_cast at g0 g30; rw [sub_mul, ← g0, ← g30]; simpa using hq1)
      push_cast at hi g0 g30
      rw [sub_mul, ← g0, ← g30] at hi
      simpa using hi

/-- The float64 sum of whole seconds below `2 ^ 23` and a fraction stays
below the next whole second. -/
theorem float64_add_bounds (s : ℤ) (x : ℚ) (hs0 : 0 ≤ s) (hs1 : s < 2 ^ 23)
    (hx0 : 0 ≤ x) (hx1 : x ≤ 1 - 2 ^ (-30 : ℤ)) :
    (s : ℚ) ≤ float64 (s + x) ∧ float64 (s + x) ≤ s + 1 - 2 ^ (-30 : ℤ) := by
  have hs0q : (0 : ℚ) ≤ s := by exact_mod_cast hs0
  have hs1q : (s : ℚ) + 1 ≤ 2 ^ (23 : ℕ) := by
    have : s + 1 ≤ 2 ^ 23 := by omega
    exact_mod_cast this
  by_cases hq : (s : ℚ) + x = 0
  · have hs : (s : ℚ) = 0 := by linarith
    rw [hq, float64_zero, hs]; norm_num
  · have hq0 : 0 ≤ (s : ℚ) + x := by positivity
    have hb : binade ((s : ℚ) + x) ≤ 22 := by
      apply binade_le hq (by norm_num)
      rw [abs_of_nonneg hq0]
      have h1 : (2 : ℚ) ^ ((22 : ℤ) + 1) = 2 ^ (23 : ℕ) := by norm_num
      have h2 : (0 : ℚ) < 2 ^ (-30 : ℤ) := by positivity
      rw [h1]; linarith
    have g0 := zpow_grid ((s : ℚ) + x) 0 (by omega)
    have g30 := zpow_grid ((s : ℚ) + x) (-30) (by omega)
    push_cast at g0 g30
    constructor
    · have lo := le_float64_of_le (q := (s : ℚ) + x)
        (A := s * 2 ^ (0 - (binade ((s : ℚ) + x) - 52)).toNat)
        (by push_cast; rw [mul_assoc, ← g0]; simpa using hx0)
      push_cast at lo
      rw [mul_assoc, ← g0] at lo
      simpa using lo
    · have hi := float64_le_of_le (q := (s : ℚ) + x)
        (B := (s + 1) * 2 ^ (0 - (binade ((s : ℚ) + x) - 52)).toNat -
          2 ^ (-30 - (binade ((s : ℚ) + x) - 52)).toNat)
        (by push_cast; rw [sub_mul, mul_assoc, ← g0, ← g30]; simp only [zpow_zero, mul_one]; linarith)
      push_cast at hi
      rw [sub_mul, mul_assoc, ← g0, ← g30] at hi
      simpa using hi

/-- For a duration between 0 and `2 ^ 23` seconds, `Seconds` lies between the
whole seconds and the next whole second. -/
theorem Seconds_bounds (d : ℤ) (h0 : 0 ≤ d) (h1 : d < 2 ^ 23 * 10 ^ 9) :
    ((d / 10 ^ 9 : ℤ) : ℚ) ≤ Seconds d ∧ Seconds d ≤ (d / 10 ^ 9 : ℤ) + 1 - 2 ^ (-30 : ℤ) := by
  unfold Seconds
  rw [Int.tdiv_eq_ediv h0 (by norm_num), Int.tmod_eq_emod h0 (by norm_num)]
  have hs0 : 0 ≤ d / 1000000000 := by omega
  have hs1 : d / 1000000000 < 2 ^ 23 := by omega
  have hn0 : 0 ≤ d % 1000000000 := by omega
  have hn1 : d % 1000000000 < 1000000000 := by omega
  rw [float64_intCast (d / 1000000000) (by rw [abs_of_nonneg hs0]; omega),
    float64_intCast (d % 1000000000) (by rw [abs_of_nonneg hn0]; omega)]
  have hx := float64_frac_bounds (d % 1000000000) hn0 hn1
  have := float64_add_bounds (d / 1000000000) _ hs0 hs1 hx.1 hx.2
  norm_num at this ⊢
  exact this


/-- A difference within the range of `Duration` is not saturated. -/
theorem Sub_eq (t u : ℤ) (h1 : minDuration ≤ t - u) (h2 : t - u ≤ maxDuration) :
    Sub t u = t - u := by
  unfold Sub
  rw [if_neg (by omega), if_neg (by omega)]

/-- The freshness test is exact for ages between 0 and `2 ^ 23` seconds and
lifetimes below `2 ^ 53`. -/
theorem isFresh_iff (now m e : ℤ) (h0 : 0 ≤ now - m) (h1 : now - m < 2 ^ 23 * 10 ^ 9)
    (he : |e| < 2 ^ 53) : isFresh now m e = true ↔ now - m < e * 10 ^ 9 := by
  unfold isFresh Since
  rw [Sub_eq now m (by unfold minDuration; omega) (by unfold maxDuration; omega),
    float64_intCast e he, decide_eq_true_iff]
  obtain ⟨lo, hi⟩ := Seconds_bounds (now - m) h0 h1
  have hpos : (0 : ℚ) < 2 ^ (-30 : ℤ) := by positivity
  constructor
  · intro h
    have h2 : ((((now - m) / 10 ^ 9 : ℤ)) : ℚ) < (e : ℚ) := lt_of_le_of_lt lo h
    have h3 : (now - m) / 10 ^ 9 < e := by exact_mod_cast h2
    omega
  · intro h
    have h3 : (now - m) / 10 ^ 9 + 1 ≤ e := by omega
    have h4 : ((((now - m) / 10 ^ 9 : ℤ)) : ℚ) + 1 ≤ (e : ℚ) := by exact_mod_cast h3
    linarith

/-- The freshness test fails at the exact boundary. -/
theorem isFresh_boundary (now m e : ℤ) (h : now - m = e * 10 ^ 9)
    (h1 : minDuration ≤ now - m) (h2 : now - m ≤ maxDuration) : isFresh now m e = false := by
  unfold isFresh Since
  rw [Sub_eq now m h1 h2, h]
  unfold minDuration at h1
  unfold maxDuration at h2
  have he : |e| < 2 ^ 53 := by rw [abs_lt]; constructor <;> omega
  unfold Seconds
  have hd : (e * 10 ^ 9).tdiv 1000000000 = e := by
    have : (e * 10 ^ 9 : ℤ) = e * 1000000000 := by norm_num
    rw [this, Int.mul_tdiv_cancel _ (by norm_num)]
  have hm : (e * 10 ^ 9).tmod 1000000000 = 0 := by
    have : (e * 10 ^ 9 : ℤ) = e * 1000000000 := by norm_num
    rw [this, Int.mul_tmod_left]
  rw [hd, hm]
  simp [float64_zero, float64_intCast e he]

/-- The float64 value of a rational whose binade and rounded significand are
known. -/
theorem float64_of_binade {q : ℚ} {k n : ℤ} (hk : -1022 ≤ k) (h1 : 2 ^ k ≤ |q|)
    (h2 : |q| < 2 ^ (k + 1)) (h3 : (n : ℚ) - 1 / 2 < q / 2 ^ (k - 52))
    (h4 : q / 2 ^ (k - 52) < n + 1 / 2) : float64 q = n * 2 ^ (k - 52) := by
  have hq : q ≠ 0 := by
    intro h0
    rw [h0, abs_zero] at h1
    have : (0 : ℚ) < 2 ^ k := by positivity
    linarith
  have hb : binade q = k := le_antisymm (binade_le hq hk h2) (le_binade hq h1)
  unfold float64 ulp
  rw [if_neg hq, hb, roundHalfEven_eq_of h3 h4]

/-- `Seconds` of 16777216.999999999 s rounds up to 16777217. -/
theorem Seconds_rounding : Seconds 16777216999999999 = 16777217 := by
  unfold Seconds
  rw [Int.tdiv_eq_ediv (by norm_num) (by norm_num), Int.tmod_eq_emod (by norm_num) (by norm_num)]
  have h1 : (16777216999999999 : ℤ) / 1000000000 = 16777216 := by norm_num
  have h2 : (16777216999999999 : ℤ) % 1000000000 = 999999999 := by norm_num
  rw [h1, h2, float64_intCast _ (by norm_num), float64_intCast _ (by norm_num)]
  have h3 : float64 (((999999999 : ℤ) : ℚ) / 1000000000) = (9007199245733793 : ℤ) * 2 ^ ((-1 : ℤ) - 52) := by
    apply float64_of_binade (by norm_num)
    · rw [abs_of_nonneg (by norm_num)]; norm_num
    · rw [abs_of_nonneg (by norm_num)]; norm_num
    · norm_num
    · norm_num
  rw [h3]
  have h4 : float64 (((16777216 : ℤ) : ℚ) + (9007199245733793 : ℤ) * 2 ^ ((-1 : ℤ) - 52)) =
      (4503599895805952 : ℤ) * 2 ^ ((24 : ℤ) - 52) := by
    apply float64_of_binade (by norm_num)
    · rw [abs_of_nonneg (by norm_num)]; norm_num
    · rw [abs_of_nonneg (by norm_num)]; norm_num
    · norm_num
    · norm_num
  rw [h4]
  norm_num

/-- Rounding to the nearest integer is monotone. -/
theorem roundHalfEven_mono {q q' : ℚ} (h : q ≤ q') : roundHalfEven q ≤ roundHalfEven q' := by
  have hf : ⌊q⌋ ≤ ⌊q'⌋ := Int.floor_le_floor h
  unfold roundHalfEven
  simp only
  by_cases he : ⌊q⌋ = ⌊q'⌋
  · rw [← he]
    have hr : q - ⌊q⌋ ≤ q' - ⌊q⌋ := by linarith
    split_ifs <;> first | omega | linarith
  · have hlt : ⌊q⌋ < ⌊q'⌋ := lt_of_le_of_ne hf he
    split_ifs <;> omega

/-- Rounding to the nearest integer, ties to even, is odd. -/
theorem roundHalfEven_neg (q : ℚ) : roundHalfEven (-q) = -roundHalfEven q := by
  have h1 := Int.floor_le q
  have h2 := Int.lt_floor_add_one q
  by_cases hint : q = ⌊q⌋
  · obtain ⟨n, rfl⟩ : ∃ n : ℤ, q = n := ⟨⌊q⌋, hint⟩
    have : -(n : ℚ) = ((-n : ℤ) : ℚ) := by push_cast; rfl
    rw [this, roundHalfEven_intCast, roundHalfEven_intCast]
  · have hlt : (⌊q⌋ : ℚ) < q := lt_of_le_of_ne h1 (Ne.symm hint)
    have hfl : ⌊-q⌋ = -⌊q⌋ - 1 := by
      rw [Int.floor_eq_iff]
      constructor
      · push_cast; linarith
      · push_cast; linarith
    unfold roundHalfEven
    simp only [hfl]
    push_cast
    split_ifs <;> first | omega | linarith

theorem binade_neg (q : ℚ) : binade (-q) = binade q := by
  unfold binade
  rw [abs_neg]

/-- Rounding to float64 is odd. -/
theorem float64_neg (q : ℚ) : float64 (-q) = -float64 q := by
  unfold float64 ulp
  by_cases hq : q = 0
  · simp [hq]
  · have hq2 : -q ≠ 0 := neg_ne_zero.mpr hq
    rw [if_neg hq, if_neg hq2, binade_neg, neg_div, roundHalfEven_neg]
    push_cast
    ring

theorem float64_nonneg {q : ℚ} (h : 0 ≤ q) : 0 ≤ float64 q := by
  have := le_float64_of_le (q := q) (A := 0) (by simpa using h)
  simpa using this

theorem float64_nonpos {q : ℚ} (h : q ≤ 0) : float64 q ≤ 0 := by
  have := float64_le_of_le (q := q) (B := 0) (by simpa using h)
  simpa using this

theorem binade_mono {q q' : ℚ} (h0 : 0 < q) (h : q ≤ q') : binade q ≤ binade q' := by
  unfold binade
  rw [abs_of_pos h0, abs_of_pos (lt_of_lt_of_le h0 h)]
  exact max_le_max (Int.log_mono_right h0 h) le_rfl

/-- Rounding to float64 is monotone from a positive value on. -/
theorem float64_mono_pos {q q' : ℚ} (h0 : 0 < q) (h : q ≤ q') : float64 q ≤ float64 q' := by
  have h0' : 0 < q' := lt_of_lt_of_le h0 h
  have hb := binade_mono h0 h
  by_cases hbe : binade q = binade q'
  · unfold float64 ulp
    rw [if_neg h0.ne', if_neg h0'.ne', hbe]
    have hu : (0 : ℚ) < 2 ^ (binade q' - 52) := by positivity
    have h1 : q / 2 ^ (binade q' - 52) ≤ q' / 2 ^ (binade q' - 52) :=
      div_le_div_of_nonneg_right h hu.le
    have h2 := roundHalfEven_mono h1
    have h3 : ((roundHalfEven (q / 2 ^ (binade q' - 52)) : ℤ) : ℚ) ≤
        ((roundHalfEven (q' / 2 ^ (binade q' - 52)) : ℤ) : ℚ) := by exact_mod_cast h2
    exact mul_le_mul_of_nonneg_right h3 hu.le
  · have hlt : binade q < binade q' := lt_of_le_of_ne hb hbe
    -- upper bound for q in its own binade
    have hq1 : q < ((2 : ℕ) : ℚ) ^ (Int.log 2 q + 1) := Int.lt_zpow_succ_log_self (by norm_num) q
    have hlog : Int.log 2 q ≤ binade q := by
      unfold binade; rw [abs_of_pos h0]; exact le_max_left _ _
    have hq2 : q ≤ (2 : ℚ) ^ (binade q + 1) := by
      have : ((2 : ℕ) : ℚ) ^ (Int.log 2 q + 1) ≤ (2 : ℚ) ^ (binade q + 1) := by
        push_cast
        exact zpow_le_zpow_right₀ (by norm_num) (by omega)
      linarith
    have hlog' : binade q' = Int.log 2 q' := by
      unfold binade at hlt ⊢
      rw [abs_of_pos h0'] at hlt ⊢
      have : -1022 ≤ max (Int.log 2 |q|) (-1022) := le_max_right _ _
      apply max_eq_left
      by_contra hc
      push_neg at hc
      rw [max_eq_right hc.le] at hlt
      omega
    have hq3 : (2 : ℚ) ^ binade q' ≤ q' := by
      rw [hlog']
      have := Int.zpow_log_le_self (b := 2) (r := q') (by norm_num) h0'
      simpa using this
    have g1 := zpow_grid q (binade q + 1) (by omega)
    have g2 := zpow_grid q' (binade q') (by omega)
    have up := float64_le_of_le (q := q) (B := 2 ^ (binade q + 1 - (binade q - 52)).toNat)
      (by rw [← g1]; exact hq2)
    have lo := le_float64_of_le (q := q') (A := 2 ^ (binade q' - (binade q' - 52)).toNat)
      (by rw [← g2]; exact hq3)
    rw [← g1] at up
    rw [← g2] at lo
    have hmid : (2 : ℚ) ^ (binade q + 1) ≤ 2 ^ binade q' :=
      zpow_le_zpow_right₀ (by norm_num) (by omega)
    linarith

/-- Rounding to float64 is monotone. -/
theorem float64_mono {q q' : ℚ} (h : q ≤ q') : float64 q ≤ float64 q' := by
  rcases lt_trichotomy 0 q with h0 | h0 | h0
  · exact float64_mono_pos h0 h
  · subst h0
    rw [float64_zero]
    exact float64_nonneg h
  · rcases le_or_lt 0 q' with h1 | h1
    · exact le_trans (float64_nonpos h0.le) (float64_nonneg h1)
    · have := @float64_mono_pos (-q') (-q) (by linarith) (by linarith)
      rw [float64_neg, float64_neg] at this
      linarith

/-- Truncated division of a nanosecond count by one second. -/
theorem tdiv_tmod_nanos (d : ℤ) :
    d = d.tdiv 1000000000 * 1000000000 + d.tmod 1000000000 ∧
      (0 ≤ d → 0 ≤ d.tmod 1000000000 ∧ d.tmod 1000000000 < 1000000000) ∧
      (d < 0 → -1000000000 < d.tmod 1000000000 ∧ d.tmod 1000000000 ≤ 0) := by
  refine ⟨by have := Int.tdiv_add_tmod' d 1000000000; omega, ?_, ?_⟩
  · intro h
    rw [Int.tmod_eq_emod h (by norm_num)]
    omega
  · intro h
    have hd : d = -(-d) := by omega
    have h1 : d.tdiv 1000000000 = -((-d) / 1000000000) := by
      rw [hd, Int.neg_tdiv, Int.tdiv_eq_ediv (by omega) (by norm_num)]
      simp
    rw [Int.tmod_def, h1]
    omega

/-- A duration of at least `e` seconds has `Seconds` at least `float64(e)`. -/
theorem Seconds_ge_of_ge (d e : ℤ) (h1 : minDuration ≤ d) (h2 : d ≤ maxDuration)
    (h : e * 10 ^ 9 ≤ d) : float64 e ≤ Seconds d := by
  unfold minDuration at h1
  unfold maxDuration at h2
  obtain ⟨hd, hpos, hneg⟩ := tdiv_tmod_nanos d
  unfold Seconds
  generalize d.tdiv 1000000000 = s at hd hpos hneg ⊢
  generalize d.tmod 1000000000 = n at hd hpos hneg ⊢
  have hn : |n| < 2 ^ 53 := by
    rw [abs_lt]
    rcases le_or_lt 0 d with hc | hc
    · have := hpos hc; constructor <;> omega
    · have := hneg hc; constructor <;> omega
  have hs : |s| < 2 ^ 53 := by
    rw [abs_lt]
    rcases le_or_lt 0 d with hc | hc
    · have := hpos hc; constructor <;> omega
    · have := hneg hc; constructor <;> omega
  rw [float64_intCast s hs, float64_intCast n hn]
  apply float64_mono
  rcases le_or_lt 0 d with hc | hc
  · obtain ⟨hn0, hn1⟩ := hpos hc
    have hx : 0 ≤ float64 ((n : ℚ) / 1000000000) :=
      float64_nonneg (by have : (0 : ℚ) ≤ n := by exact_mod_cast hn0
                         positivity)
    have hse : e ≤ s := by omega
    have : (e : ℚ) ≤ s := by exact_mod_cast hse
    linarith
  · obtain ⟨hn0, hn1⟩ := hneg hc
    by_cases hz : n = 0
    · subst hz
      have hse : e ≤ s := by omega
      have : (e : ℚ) ≤ s := by exact_mod_cast hse
      simp only [Int.cast_zero, zero_div, float64_zero, add_zero]
      exact this
    · have hx : -1 ≤ float64 ((n : ℚ) / 1000000000) := by
        have hm : float64 (((-1 : ℤ) : ℚ)) = ((-1 : ℤ) : ℚ) := float64_intCast (-1) (by norm_num)
        have hle : (((-1 : ℤ) : ℚ)) ≤ (n : ℚ) / 1000000000 := by
          rw [le_div_iff₀ (by norm_num)]
          have : (-1 : ℤ) * 1000000000 ≤ n := by omega
          exact_mod_cast this
        have := float64_mono hle
        rw [hm] at this
        simpa using this
      have hse : e + 1 ≤ s := by omega
      have : (e : ℚ) + 1 ≤ s := by exact_mod_cast hse
      linarith

/-- The freshness test passes only if the age is below the lifetime. -/
theorem isFresh_sound (now m e : ℤ) (h1 : minDuration ≤ now - m) (h2 : now - m ≤ maxDuration)
    (h : isFresh now m e = true) : now - m < e * 10 ^ 9 := by
  by_contra hc
  push_neg at hc
  have := Seconds_ge_of_ge (now - m) e h1 h2 hc
  unfold isFresh Since at h
  rw [Sub_eq now m h1 h2, decide_eq_true_iff] at h
  linarith

/-- For ages between 0 and `2 ^ 23` seconds the freshness test passes whenever
the age is below the lifetime. -/
theorem isFresh_complete (now m e : ℤ) (h0 : 0 ≤ now - m) (h1 : now - m < 2 ^ 23 * 10 ^ 9)
    (h : now - m < e * 10 ^ 9) : isFresh now m e = true := by
  by_cases he : |e| < 2 ^ 53
  · exact (isFresh_iff now m e h0 h1 he).mpr h
  · have hepos : 0 < e := by omega
    have he2 : 2 ^ 53 - 1 ≤ e := by
      rw [abs_of_pos hepos] at he
      omega
    unfold isFresh Since
    rw [Sub_eq now m (by unfold minDuration; omega) (by unfold maxDuration; omega),
      decide_eq_true_iff]
    obtain ⟨_, hi⟩ := Seconds_bounds (now - m) h0 h1
    have hm : float64 (((2 ^ 53 - 1 : ℤ)) : ℚ) ≤ float64 (e : ℚ) :=
      float64_mono (by exact_mod_cast he2)
    rw [float64_intCast _ (by norm_num)] at hm
    have hs : (now - m) / 10 ^ 9 < 2 ^ 23 := by omega
    have hs2 : ((((now - m) / 10 ^ 9 : ℤ)) : ℚ) < ((2 ^ 23 : ℤ) : ℚ) := by exact_mod_cast hs
    have hpos : (0 : ℚ) < 2 ^ (-30 : ℤ) := by positivity
    push_cast at hm hs2
    linarith

/-! ## The search code pattern -/

theorem mem_ends_charClass (text : List Char) (p : Char → Bool) (pos e : Nat) :
    e ∈ (Regexp.charClass p).ends text pos ↔
      e = pos + 1 ∧ ∃ c, text.get? pos = some c ∧ p c = true := by
  unfold Regexp.ends
  cases h : text.get? pos with
  | none => simp
  | some c =>
    by_cases hp : p c = true
    · simp [hp]
    · simp [hp]

/-- Exactly `n` characters of a class from `pos`. -/
theorem mem_exactly_charClass (text : List Char) (p : Char → Bool) (n pos e : Nat) :
    e ∈ exactly (fun q => (Regexp.charClass p).ends text q) n pos ↔
      e = pos + n ∧ ∀ i, i < n → ∃ c, text.get? (pos + i) = some c ∧ p c = true := by
  induction n generalizing pos with
  | zero => simp [exactly]
  | succ n ih =>
    simp only [exactly, List.mem_flatMap, mem_ends_charClass, ih]
    constructor
    · rintro ⟨mid, ⟨rfl, hc⟩, rfl, hall⟩
      refine ⟨by omega, ?_⟩
      intro i hi
      cases i with
      | zero => simpa using hc
      | succ j =>
        have := hall j (by omega)
        have h2 : pos + 1 + j = pos + (j + 1) := by omega
        rwa [h2] at this
    · rintro ⟨rfl, hall⟩
      refine ⟨pos + 1, ⟨rfl, by simpa using hall 0 (by omega)⟩, by omega, ?_⟩
      intro i hi
      have := hall (i + 1) (by omega)
      have h2 : pos + 1 + i = pos + (i + 1) := by omega
      rwa [h2]

/-- At most `n` matches are exactly `m` matches for some `m ≤ n`. -/
theorem mem_upTo (f : Nat → List Nat) (n pos e : Nat) :
    e ∈ upTo f n pos ↔ ∃ m, m ≤ n ∧ e ∈ exactly f m pos := by
  induction n generalizing pos with
  | zero => simp [upTo, exactly]
  | succ n ih =>
    simp only [upTo, List.mem_append, List.mem_flatMap, ih, List.mem_singleton]
    constructor
    · rintro (⟨mid, hmid, m, hm, he⟩ | rfl)
      · exact ⟨m + 1, by omega, by simp only [exactly, List.mem_flatMap]; exact ⟨mid, hmid, he⟩⟩
      · exact ⟨0, by omega, by simp [exactly]⟩
    · rintro ⟨m, hm, he⟩
      cases m with
      | zero => right; simpa [exactly] using he
      | succ k =>
        left
        simp only [exactly, List.mem_flatMap] at he
        obtain ⟨mid, hmid, he⟩ := he
        exact ⟨mid, hmid, k, by omega, he⟩

theorem exactly_add (f : Nat → List Nat) (a b pos : Nat) :
    exactly f (a + b) pos = (exactly f a pos).flatMap (exactly f b) := by
  induction a generalizing pos with
  | zero => simp [exactly]
  | succ a ih =>
    have h : a + 1 + b = (a + b) + 1 := by omega
    rw [h]
    simp only [exactly, List.flatMap_assoc]
    congr 1
    funext x
    exact ih x

theorem mem_ends_rep_charClass (text : List Char) (p : Char → Bool) (pos e : Nat) :
    e ∈ (Regexp.rep (.charClass p) 3 7).ends text pos ↔
      ∃ m, m ≤ 4 ∧ e = pos + (3 + m) ∧
        ∀ i, i < 3 + m → ∃ c, text.get? (pos + i) = some c ∧ p c = true := by
  have key : ∀ m, e ∈ (exactly (fun q => (Regexp.charClass p).ends text q) 3 pos).flatMap
      (exactly (fun q => (Regexp.charClass p).ends text q) m) ↔
      e = pos + (3 + m) ∧ ∀ i, i < 3 + m → ∃ c, text.get? (pos + i) = some c ∧ p c = true := by
    intro m
    rw [← exactly_add, mem_exactly_charClass]
  unfold Regexp.ends
  simp only [List.mem_flatMap, mem_upTo]
  constructor
  · rintro ⟨mid, hmid, m, hm, he⟩
    exact ⟨m, by omega, (key m).mp (List.mem_flatMap.mpr ⟨mid, hmid, he⟩)⟩
  · rintro ⟨m, hm, he⟩
    obtain ⟨mid, hmid, he2⟩ := List.mem_flatMap.mp ((key m).mpr he)
    exact ⟨mid, hmid, m, by omega, he2⟩

theorem forall_get?_iff (text : List Char) (p : Char → Bool) :
    (∀ i, i < text.length → ∃ c, text.get? i = some c ∧ p c = true) ↔
      ∀ c ∈ text, p c = true := by
  constructor
  · intro h c hc
    obtain ⟨i, hi, rfl⟩ := List.getElem_of_mem hc
    obtain ⟨c2, h1, h2⟩ := h i hi
    rw [List.get?_eq_getElem?, List.getElem?_eq_getElem hi] at h1
    cases h1
    exact h2
  · intro h i hi
    exact ⟨text[i], by rw [List.get?_eq_getElem?, List.getElem?_eq_getElem hi],
      h _ (List.getElem_mem hi)⟩

theorem mem_ends_beginText (text : List Char) (pos e : Nat) :
    e ∈ Regexp.beginText.ends text pos ↔ pos = 0 ∧ e = pos := by
  unfold Regexp.ends
  by_cases h : pos = 0 <;> simp [h]

theorem mem_ends_endText (text : List Char) (pos e : Nat) :
    e ∈ Regexp.endText.ends text pos ↔ pos = text.length ∧ e = pos := by
  unfold Regexp.ends
  by_cases h : pos = text.length <;> simp [h]

/-- The matches of `^\w{3,7}$`: from position 0 to the end of a text of three
to seven word characters. -/
theorem mem_ends_searchCodePattern (text : List Char) (start e : Nat) :
    e ∈ searchCodePattern.ends text start ↔
      start = 0 ∧ e = text.length ∧ 3 ≤ text.length ∧ text.length ≤ 7 ∧
        ∀ c ∈ text, isWordChar c = true := by
  show e ∈ (Regexp.beginText.ends text start).flatMap (fun mid =>
    ((Regexp.rep (.charClass isWordChar) 3 7).ends text mid).flatMap
      (fun mid2 => Regexp.endText.ends text mid2)) ↔ _
  simp only [List.mem_flatMap, mem_ends_rep_charClass, mem_ends_beginText, mem_ends_endText]
  constructor
  · rintro ⟨mid, ⟨h0, rfl⟩, mid2, ⟨m, hm, hlen, hall⟩, hl, rfl⟩
    subst h0
    refine ⟨rfl, hl, by omega, by omega, ?_⟩
    rw [← forall_get?_iff]
    intro i hi
    have := hall i (by omega)
    simpa using this
  · rintro ⟨rfl, rfl, h3, h7, hall⟩
    refine ⟨0, ⟨rfl, rfl⟩, text.length, ⟨text.length - 3, by omega, by omega, ?_⟩, rfl, rfl⟩
    intro i hi
    have := (forall_get?_iff text isWordChar).mpr hall i (by omega)
    simpa using this

theorem isWordChar_eq_isKeyChar (c : Char) : isWordChar c = isKeyChar c := by
  unfold isWordChar isKeyChar
  rw [Bool.eq_iff_iff]
  simp only [decide_eq_true_eq]
  tauto

/-- The pattern of the handler accepts exactly the specified keys. -/
theorem MatchString_searchCodePattern (s : String) :
    MatchString searchCodePattern s = validSearchKey s := by
  rw [Bool.eq_iff_iff]
  unfold MatchString validSearchKey
  simp only [List.any_eq_true, List.mem_range, Bool.not_eq_true', decide_eq_true_eq,
    List.all_eq_true, Bool.decide_and, Bool.and_eq_true]
  constructor
  · rintro ⟨start, _, hne⟩
    cases hl : searchCodePattern.ends s.data start with
    | nil => rw [hl] at hne; simp at hne
    | cons e rest =>
      have hmem : e ∈ searchCodePattern.ends s.data start := by rw [hl]; simp
      obtain ⟨_, _, h3, h7, hall⟩ := (mem_ends_searchCodePattern _ _ _).mp hmem
      exact ⟨h3, h7, fun c hc => by rw [← isWordChar_eq_isKeyChar]; exact hall c hc⟩
  · rintro ⟨h3, h7, hall⟩
    refine ⟨0, by omega, ?_⟩
    have hmem : s.data.length ∈ searchCodePattern.ends s.data 0 :=
      (mem_ends_searchCodePattern _ _ _).mpr
        ⟨rfl, rfl, h3, h7, fun c hc => by rw [isWordChar_eq_isKeyChar]; exact hall c hc⟩
    cases hl : searchCodePattern.ends s.data 0 with
    | nil => rw [hl] at hmem; simp at hmem
    | cons e rest => rfl

/-! ## getJapanPostToken: the cache lookup -/

/-- The cache lookup on a readable file that parses: only the freshness test
is left. -/
theorem cachedToken_parsed (env : Env) (f : File) (r : TokenResponse)
    (hread : f.readable = true) (hparse : jsonUnmarshal f.data = .ok r) :
    cachedToken env (some f) =
      (if isFresh env.now f.modTime r.ExpiresIn then some r.Token else none,
        [.stat tokenFilename, .readFile tokenFilename, .stat tokenFilename]) := by
  unfold cachedToken
  simp only [hread, hparse, if_true]
  split_ifs <;> rfl

/-- A cache hit is returned as it is. -/
theorem getJapanPostToken_of_cached (env : Env) (file : Option File) (token : String)
    (evs : List Event) (h : cachedToken env file = (some token, evs)) :
    getJapanPostToken env file = ⟨token, none, file, evs⟩ := by
  unfold getJapanPostToken
  rw [h]

/-- After a cache miss the next operation is reading the credentials file. -/
theorem getJapanPostToken_events_of_miss (env : Env) (file : Option File) (evs : List Event)
    (h : cachedToken env file = (none, evs)) :
    ∃ rest, (getJapanPostToken env file).events =
      evs ++ Event.readFile "credentials.json" :: rest := by
  unfold getJapanPostToken
  rw [h]
  simp only
  repeat' split
  all_goals first
    | exact ⟨[], rfl⟩
    | exact ⟨_, List.append_assoc _ _ _⟩
    | exact ⟨_, by rw [List.append_assoc, List.append_assoc]; rfl⟩

/-- The record is reused exactly when the freshness test of line 105 passes. -/
theorem getJapanPostToken_reused_iff (env : Env) (f : File) (r : TokenResponse)
    (hread : f.readable = true) (hparse : jsonUnmarshal f.data = .ok r) :
    getJapanPostToken env (some f) = reusedOutcome f r.Token ↔
      isFresh env.now f.modTime r.ExpiresIn = true := by
  have hc := cachedToken_parsed env f r hread hparse
  constructor
  · intro h
    by_contra hf
    rw [if_neg hf] at hc
    obtain ⟨rest, hev⟩ := getJapanPostToken_events_of_miss env (some f) _ hc
    rw [h] at hev
    simp [reusedOutcome] at hev
  · intro h
    rw [if_pos h] at hc
    exact getJapanPostToken_of_cached env (some f) _ _ hc

/-- The outcome of a call in which the cache misses and every step of the
acquisition succeeds. -/
theorem getJapanPostToken_acquired (env : Env) (file : Option File) (evs : List Event)
    (credentials body : String) (r : TokenResponse)
    (hc : cachedToken env file = (none, evs)) (hcred : env.credentials = .ok credentials)
    (hnew : env.newRequest "POST" tokenURL = none)
    (hdo : env.clientDo (tokenRequest credentials) = .ok ⟨200, body, none⟩)
    (hwrite : env.write = .ok) (hparse : jsonUnmarshal body = .ok r) :
    getJapanPostToken env file =
      ⟨r.Token, none, (WriteFile env file body).2,
        evs ++ [.readFile "credentials.json", .httpDo (tokenRequest credentials),
          .writeFile tokenFilename body]⟩ := by
  unfold getJapanPostToken
  rw [hc]
  simp [hcred, hnew, hdo, hwrite, hparse, WriteFile]

/-! ## Claims -/

/-- C1 (amended). For a readable token file that parses as a record with
`expires_in = e` and modification time `m`, and a clock `t`,
`getJapanPostToken` reuses the record (returns its token, acquiring nothing)
if and only if `time.Since(m).Seconds() < float64(e)` holds in float64
arithmetic.  While `t - m` is in the range of `Duration`, a reused record has
`t - m < e` seconds, so at the exact boundary `t - m = e` the record is not
reused; and for `0 ≤ t - m < 2 ^ 23` seconds every record with `t - m < e`
seconds is reused. -/
theorem getJapanPostToken_fresh_iff (env : Env) (f : File) (r : TokenResponse)
    (hread : f.readable = true) (hparse : jsonUnmarshal f.data = .ok r) :
    (getJapanPostToken env (some f) = reusedOutcome f r.Token ↔
      Seconds (Since env.now f.modTime) < float64 r.ExpiresIn) ∧
    (minDuration ≤ env.now - f.modTime → env.now - f.modTime ≤ maxDuration →
      getJapanPostToken env (some f) = reusedOutcome f r.Token →
      env.now - f.modTime < r.ExpiresIn * 10 ^ 9) ∧
    (minDuration ≤ env.now - f.modTime → env.now - f.modTime ≤ maxDuration →
      env.now - f.modTime = r.ExpiresIn * 10 ^ 9 →
      ¬ getJapanPostToken env (some f) = reusedOutcome f r.Token) ∧
    (0 ≤ env.now - f.modTime → env.now - f.modTime < 2 ^ 23 * 10 ^ 9 →
      env.now - f.modTime < r.ExpiresIn * 10 ^ 9 →
      getJapanPostToken env (some f) = reusedOutcome f r.Token) := by
  have key := getJapanPostToken_reused_iff env f r hread hparse
  refine ⟨?_, ?_, ?_, ?_⟩
  · rw [key]; unfold isFresh; simp
  · intro h1 h2 hre
    exact isFresh_sound _ _ _ h1 h2 (key.mp hre)
  · intro h1 h2 hb hre
    have := isFresh_sound _ _ _ h1 h2 (key.mp hre)
    omega
  · intro h0 h1 hlt
    exact key.mpr (isFresh_complete _ _ _ h0 h1 hlt)

/-- Witness for C1: a record written at 60 s with `expires_in = 3600` is
reused at 100 s. -/
theorem getJapanPostToken_fresh_iff_witness :
    getJapanPostToken sampleEnv (some sampleFile) = reusedOutcome sampleFile "T" :=
  (getJapanPostToken_fresh_iff sampleEnv sampleFile ⟨"T", 3600⟩ rfl rfl).2.2.2
    (by decide) (by decide) (by decide)

/-- The freshness test at the inputs of `roundingEnv` and `roundingFile`. -/
theorem isFresh_rounding :
    isFresh 1716777216999999999 1700000000000000000 16777217 = false := by
  unfold isFresh Since
  rw [Sub_eq _ _ (by unfold minDuration; norm_num) (by unfold maxDuration; norm_num)]
  have : (1716777216999999999 : ℤ) - 1700000000000000000 = 16777216999999999 := by norm_num
  rw [this, Seconds_rounding, float64_intCast _ (by norm_num)]
  simp

/-- The cache lookup misses at the inputs of `roundingEnv` and `roundingFile`. -/
theorem cachedToken_rounding :
    cachedToken roundingEnv (some roundingFile) =
      (none, [.stat tokenFilename, .readFile tokenFilename, .stat tokenFilename]) := by
  have hc := cachedToken_parsed roundingEnv roundingFile ⟨"T", 16777217⟩ rfl rfl
  have h1 : roundingEnv.now = 1716777216999999999 := rfl
  have h2 : roundingFile.modTime = 1700000000000000000 := rfl
  have h3 : (⟨"T", 16777217⟩ : TokenResponse).ExpiresIn = 16777217 := rfl
  rw [h1, h2, h3, isFresh_rounding] at hc
  exact hc

/-- The age of `roundingFile` in seconds, as float64. -/
theorem Seconds_Since_rounding :
    Seconds (Since roundingEnv.now roundingFile.modTime) = 16777217 := by
  have h1 : roundingEnv.now = 1716777216999999999 := rfl
  have h2 : roundingFile.modTime = 1700000000000000000 := rfl
  rw [h1, h2]
  unfold Since
  rw [Sub_eq _ _ (by unfold minDuration; norm_num) (by unfold maxDuration; norm_num)]
  have : (1716777216999999999 : ℤ) - 1700000000000000000 = 16777216999999999 := by norm_num
  rw [this]
  exact Seconds_rounding

/-- The call at the inputs of `roundingEnv` and `roundingFile`: the cache
misses and a new token is acquired and written. -/
theorem getJapanPostToken_rounding :
    getJapanPostToken roundingEnv (some roundingFile) =
      ⟨"T", none, some ⟨sampleBody, 100000000000, true⟩,
        [.stat tokenFilename, .readFile tokenFilename, .stat tokenFilename,
          .readFile "credentials.json", .httpDo (tokenRequest "creds"),
          .writeFile tokenFilename sampleBody]⟩ := by
  rw [getJapanPostToken_acquired roundingEnv (some roundingFile) _ "creds" sampleBody
    ⟨"T", 3600⟩ cachedToken_rounding rfl rfl rfl rfl rfl]
  rfl

/-- Counterexample to C1 as stated: the record declares `expires_in =
16777217` and the file is 16777216.999999999 s old, so `t - m < e`, yet the
float64 value of `Seconds()` rounds up to 16777217 and the record is not
reused: the call acquires a new token and overwrites the file. -/
theorem getJapanPostToken_fresh_counterexample :
    jsonUnmarshal roundingFile.data = .ok ⟨"T", 16777217⟩ ∧
    roundingEnv.now - roundingFile.modTime = 16777216999999999 ∧
    roundingEnv.now - roundingFile.modTime < 16777217 * 10 ^ 9 ∧
    Seconds (Since roundingEnv.now roundingFile.modTime) = 16777217 ∧
    getJapanPostToken roundingEnv (some roundingFile) =
      ⟨"T", none, some ⟨sampleBody, 100000000000, true⟩,
        [.stat tokenFilename, .readFile tokenFilename, .stat tokenFilename,
          .readFile "credentials.json", .httpDo (tokenRequest "creds"),
          .writeFile tokenFilename sampleBody]⟩ :=
  ⟨rfl, by decide, by decide, Seconds_Since_rounding, getJapanPostToken_rounding⟩

/-- C2 (amended). Any number of consecutive calls on a readable record that,
at every call time, passes the freshness test of line 105
(`time.Since(m).Seconds() < float64(e)`), which every record with
`t - m < e` seconds and an age `t - m` between 0 and `2 ^ 23` seconds does:
every call returns the stored token without error, sends no request, does
not read the credentials file and leaves the token file as it is; there is
one outcome per call. -/
theorem getJapanPostTokenCalls_fresh (envs : List Env) (f : File) (r : TokenResponse)
    (hread : f.readable = true) (hparse : jsonUnmarshal f.data = .ok r)
    (hfresh : ∀ env ∈ envs, isFresh env.now f.modTime r.ExpiresIn = true ∨
      (0 ≤ env.now - f.modTime ∧ env.now - f.modTime < 2 ^ 23 * 10 ^ 9 ∧
        env.now - f.modTime < r.ExpiresIn * 10 ^ 9)) :
    (getJapanPostTokenCalls envs (some f)).length = envs.length ∧
    ∀ out ∈ getJapanPostTokenCalls envs (some f),
      out.token = r.Token ∧ out.err = none ∧ upstreamRequests out.events = [] ∧
        Event.readFile "credentials.json" ∉ out.events ∧ out.tokenFile = some f := by
  induction envs with
  | nil => simp [getJapanPostTokenCalls]
  | cons env envs ih =>
    have hf : isFresh env.now f.modTime r.ExpiresIn = true := by
      rcases hfresh env (List.mem_cons_self _ _) with h | ⟨h0, h1, h2⟩
      · exact h
      · exact isFresh_complete _ _ _ h0 h1 h2
    have h1 : getJapanPostToken env (some f) = reusedOutcome f r.Token :=
      (getJapanPostToken_reused_iff env f r hread hparse).mpr hf
    have ih2 := ih (fun e he => hfresh e (List.mem_cons_of_mem _ he))
    simp only [getJapanPostTokenCalls, h1, List.length_cons, List.mem_cons]
    have hfile : (reusedOutcome f r.Token).tokenFile = some f := rfl
    rw [hfile]
    refine ⟨by rw [ih2.1], ?_⟩
    rintro out (rfl | hout)
    · refine ⟨rfl, rfl, rfl, ?_, rfl⟩
      simp [reusedOutcome, tokenFilename]
    · exact ih2.2 out hout

/-- Witness for C2: two calls, at 100 s and at 200 s, on a record written at
60 s with `expires_in = 3600`; the ages 40 s and 140 s are below 3600 s. -/
theorem getJapanPostTokenCalls_fresh_witness :
    (getJapanPostTokenCalls [sampleEnv, laterEnv] (some sampleFile)).length = 2 ∧
    ∀ out ∈ getJapanPostTokenCalls [sampleEnv, laterEnv] (some sampleFile),
      out.token = "T" ∧ out.err = none ∧ upstreamRequests out.events = [] ∧
        Event.readFile "credentials.json" ∉ out.events ∧ out.tokenFile = some sampleFile :=
  getJapanPostTokenCalls_fresh [sampleEnv, laterEnv] sampleFile ⟨"T", 3600⟩ rfl rfl
    (by
      intro env henv
      simp only [List.mem_cons, List.mem_singleton, List.not_mem_nil, or_false] at henv
      rcases henv with rfl | rfl
      · exact Or.inr ⟨by decide, by decide, by decide⟩
      · exact Or.inr ⟨by decide, by decide, by decide⟩)

/-- Counterexample to C2 as stated, with one call: the record is readable,
parses with `expires_in = 16777217` and is 16777216.999999999 s old, so it is
fresh in the sense `t - m < e`; yet the call reads the credentials file,
sends the token request and overwrites the token file. -/
theorem getJapanPostTokenCalls_fresh_counterexample :
    roundingFile.readable = true ∧
    jsonUnmarshal roundingFile.data = .ok ⟨"T", 16777217⟩ ∧
    0 ≤ roundingEnv.now - roundingFile.modTime ∧
    roundingEnv.now - roundingFile.modTime < 16777217 * 10 ^ 9 ∧
    getJapanPostTokenCalls [roundingEnv] (some roundingFile) =
      [⟨"T", none, some ⟨sampleBody, 100000000000, true⟩,
        [.stat tokenFilename, .readFile tokenFilename, .stat tokenFilename,
          .readFile "credentials.json", .httpDo (tokenRequest "creds"),
          .writeFile tokenFilename sampleBody]⟩] ∧
    upstreamRequests
        [.stat tokenFilename, .readFile tokenFilename, .stat tokenFilename,
          .readFile "credentials.json", .httpDo (tokenRequest "creds"),
          .writeFile tokenFilename sampleBody] = [tokenRequest "creds"] ∧
    some (⟨sampleBody, 100000000000, true⟩ : File) ≠ some roundingFile := by
  refine ⟨rfl, rfl, by decide, by decide, ?_, rfl, by decide⟩
  simp only [getJapanPostTokenCalls, getJapanPostToken_rounding]

/-- C3. When the token file is absent or holds a stale record, the
credentials file is readable, the token endpoint answers 200 with a body that
parses as a token record and the write succeeds, `getJapanPostToken` sends
exactly one request, a POST whose body is the content of the credentials
file, returns the token of the response without error, and leaves the token
file holding exactly the response body. -/
theorem getJapanPostToken_refresh (env : Env) (file : Option File) (credentials body : String)
    (r : TokenResponse)
    (hstale : file = none ∨ ∃ f r0, file = some f ∧ f.readable = true ∧
      jsonUnmarshal f.data = .ok r0 ∧ isFresh env.now f.modTime r0.ExpiresIn = false)
    (hcred : env.credentials = .ok credentials)
    (hnew : env.newRequest "POST" tokenURL = none)
    (hdo : env.clientDo (tokenRequest credentials) = .ok ⟨200, body, none⟩)
    (hparse : jsonUnmarshal body = .ok r) (hwrite : env.write = .ok) :
    upstreamRequests (getJapanPostToken env file).events = [tokenRequest credentials] ∧
    (tokenRequest credentials).Method = "POST" ∧
    (tokenRequest credentials).Body = some credentials ∧
    (getJapanPostToken env file).token = r.Token ∧
    (getJapanPostToken env file).err = none ∧
    ∃ f2, (getJapanPostToken env file).tokenFile = some f2 ∧ f2.data = body := by
  have hm : (tokenRequest credentials).Method = "POST" := rfl
  have hb : (tokenRequest credentials).Body = some credentials := rfl
  rcases hstale with rfl | ⟨f, r0, rfl, hread, hp0, hfr⟩
  · simp [getJapanPostToken, cachedToken, hcred, hnew, hdo, hparse, hwrite, WriteFile,
      upstreamRequests, hm, hb]
  · have hc := cachedToken_parsed env f r0 hread hp0
    rw [hfr] at hc
    simp [getJapanPostToken, hc, hcred, hnew, hdo, hparse, hwrite, WriteFile,
      upstreamRequests, hm, hb]

/-- Witness for C3: no token file, every operation succeeds. -/
theorem getJapanPostToken_refresh_witness :
    upstreamRequests (getJapanPostToken sampleEnv none).events = [tokenRequest "creds"] ∧
    (getJapanPostToken sampleEnv none).token = "T" ∧
    (getJapanPostToken sampleEnv none).err = none ∧
    ∃ f2, (getJapanPostToken sampleEnv none).tokenFile = some f2 ∧ f2.data = sampleBody :=
  have h := getJapanPostToken_refresh sampleEnv none "creds" sampleBody ⟨"T", 3600⟩
    (Or.inl rfl) rfl rfl rfl rfl rfl
  ⟨h.1, h.2.2.2.1, h.2.2.2.2.1, h.2.2.2.2.2⟩

/-- C4 (amended). When no fresh record is cached, the token endpoint answers
200 with a body that parses as a token record, and writing the token file
fails, `getJapanPostToken` returns the save error (トークン保存エラー) and
the empty string, not the acquired token. -/
theorem getJapanPostToken_save_failure (env : Env) (file : Option File)
    (credentials body : String) (r : TokenResponse)
    (hmiss : (cachedToken env file).1 = none)
    (hcred : env.credentials = .ok credentials)
    (hnew : env.newRequest "POST" tokenURL = none)
    (hdo : env.clientDo (tokenRequest credentials) = .ok ⟨200, body, none⟩)
    (_hparse : jsonUnmarshal body = .ok r) (hwrite : env.write ≠ .ok) :
    (getJapanPostToken env file).token = "" ∧
      ∃ cause, (getJapanPostToken env file).err = some (.save cause) := by
  unfold getJapanPostToken
  rcases hc : cachedToken env file with ⟨tok, evs⟩
  rw [hc] at hmiss
  simp only at hmiss
  subst hmiss
  simp only [hcred, hnew, hdo]
  cases hw : env.write with
  | ok => exact absurd hw hwrite
  | openFailed cause => simp [WriteFile, hw]
  | writeFailed cause n => simp [WriteFile, hw]

/-- Witness for C4 (amended): the token file cannot be opened for writing. -/
theorem getJapanPostToken_save_failure_witness :
    (getJapanPostToken saveFailEnv none).token = "" ∧
      ∃ cause, (getJapanPostToken saveFailEnv none).err = some (.save cause) :=
  getJapanPostToken_save_failure saveFailEnv none "creds" sampleBody ⟨"T", 3600⟩
    rfl rfl rfl rfl rfl (by decide)

/-- Counterexample to C4 as stated: the token endpoint answers 200 with a
body that parses to the token `T`, the write fails, and the call returns the
save error with the empty string instead of `T`. -/
theorem getJapanPostToken_save_failure_counterexample :
    saveFailEnv.clientDo (tokenRequest "creds") = .ok ⟨200, sampleBody, none⟩ ∧
    jsonUnmarshal sampleBody = .ok ⟨"T", 3600⟩ ∧
    getJapanPostToken saveFailEnv none =
      ⟨"", some (.save "permission denied"), none,
        [.stat tokenFilename, .readFile "credentials.json", .httpDo (tokenRequest "creds"),
          .writeFile tokenFilename sampleBody]⟩ :=
  ⟨rfl, rfl, rfl⟩

/-- C5 (amended). A readable token file whose content fails to parse is
handled like an absent file: in every environment the returned pair and the
requests sent are the same as in the absent case, so the corrupt file by
itself never produces an error.  The final token file is the same whenever
the absent case leaves a file (the response body was written); when the
absent case leaves none, the corrupt file stays as it was. -/
theorem getJapanPostToken_corrupt_as_absent (env : Env) (f : File) (e : JsonError)
    (hread : f.readable = true) (hparse : jsonUnmarshal f.data = .error e) :
    (getJapanPostToken env (some f)).token = (getJapanPostToken env none).token ∧
    (getJapanPostToken env (some f)).err = (getJapanPostToken env none).err ∧
    upstreamRequests (getJapanPostToken env (some f)).events =
      upstreamRequests (getJapanPostToken env none).events ∧
    ((getJapanPostToken env none).tokenFile ≠ none →
      (getJapanPostToken env (some f)).tokenFile = (getJapanPostToken env none).tokenFile) ∧
    ((getJapanPostToken env none).tokenFile = none →
      (getJapanPostToken env (some f)).tokenFile = some f) := by
  have hc : cachedToken env (some f) =
      (none, [.stat tokenFilename, .readFile tokenFilename]) := by
    unfold cachedToken
    simp [hread, hparse]
  have ha : cachedToken env none = (none, [.stat tokenFilename]) := rfl
  unfold getJapanPostToken
  rw [hc, ha]
  simp only
  cases env.credentials with
  | error c => simp [upstreamRequests]
  | ok credentials =>
    simp only
    cases env.newRequest "POST" tokenURL with
    | some c => simp [upstreamRequests]
    | none =>
      simp only
      cases env.clientDo (tokenRequest credentials) with
      | error c => simp [upstreamRequests]
      | ok resp =>
        simp only
        split_ifs with hs
        · simp [upstreamRequests]
        · cases resp.bodyErr with
          | some c => simp [upstreamRequests]
          | none =>
            simp only
            cases hw : env.write with
            | ok =>
              simp only [WriteFile, hw, hread]
              cases jsonUnmarshal resp.Body <;> simp [upstreamRequests]
            | openFailed cause => simp [WriteFile, hw, upstreamRequests]
            | writeFailed cause n => simp [WriteFile, hw, hread, upstreamRequests]

/-- Witness for C5 (amended): a corrupt file, every operation succeeds. -/
theorem getJapanPostToken_corrupt_as_absent_witness :
    (getJapanPostToken sampleEnv (some corruptFile)).token = "T" ∧
    (getJapanPostToken sampleEnv (some corruptFile)).err = none ∧
    (getJapanPostToken sampleEnv (some corruptFile)).tokenFile =
      (getJapanPostToken sampleEnv none).tokenFile :=
  have h := getJapanPostToken_corrupt_as_absent sampleEnv corruptFile .malformed rfl rfl
  ⟨h.1.trans rfl, h.2.1.trans rfl, h.2.2.2.1 (by decide)⟩

/-- Counterexample to C5 as stated: with an unreadable credentials file the
call fails before any write, so the corrupt file is still there afterwards,
while in the absent case there is no token file. -/
theorem getJapanPostToken_corrupt_as_absent_counterexample :
    jsonUnmarshal corruptFile.data = .error .malformed ∧
    (getJapanPostToken noCredentialsEnv (some corruptFile)).tokenFile = some corruptFile ∧
    (getJapanPostToken noCredentialsEnv none).tokenFile = none :=
  ⟨rfl, rfl, rfl⟩

/-- C6 (amended). After a 200 response from the token endpoint, a body that
`json.Unmarshal` rejects makes `getJapanPostToken` return an error and the
empty string; a body that parses is accepted whatever its token field holds:
once it is written, the call returns that token, the empty string included,
with a nil error. -/
theorem getJapanPostToken_response_body (env : Env) (file : Option File)
    (credentials body : String)
    (hmiss : (cachedToken env file).1 = none)
    (hcred : env.credentials = .ok credentials)
    (hnew : env.newRequest "POST" tokenURL = none)
    (hdo : env.clientDo (tokenRequest credentials) = .ok ⟨200, body, none⟩) :
    (∀ e, jsonUnmarshal body = .error e →
      (getJapanPostToken env file).token = "" ∧ (getJapanPostToken env file).err ≠ none) ∧
    (∀ r, jsonUnmarshal body = .ok r → env.write = .ok →
      (getJapanPostToken env file).token = r.Token ∧ (getJapanPostToken env file).err = none) := by
  unfold getJapanPostToken
  rcases hc : cachedToken env file with ⟨tok, evs⟩
  rw [hc] at hmiss
  simp only at hmiss
  subst hmiss
  simp only [hcred, hnew, hdo]
  constructor
  · intro e he
    cases hw : env.write <;> simp [WriteFile, hw, he]
  · intro r hr hw
    simp [WriteFile, hw, hr]

/-- Witness for C6 (amended): the body `{"expires_in":3600}` parses with an
empty token. -/
theorem getJapanPostToken_response_body_witness :
    (getJapanPostToken missingTokenEnv none).token = "" ∧
      (getJapanPostToken missingTokenEnv none).err = none :=
  (getJapanPostToken_response_body missingTokenEnv none "creds" missingTokenBody
    rfl rfl rfl rfl).2 ⟨"", 3600⟩ rfl rfl

/-- Counterexample to C6 as stated: the token endpoint answers 200 with
`{"expires_in":3600}`, whose token field is missing, and the call returns the
empty token with a nil error. -/
theorem getJapanPostToken_response_body_counterexample :
    missingTokenEnv.clientDo (tokenRequest "creds") = .ok ⟨200, missingTokenBody, none⟩ ∧
    jsonUnmarshal missingTokenBody = .ok ⟨"", 3600⟩ ∧
    getJapanPostToken missingTokenEnv none =
      ⟨"", none, some ⟨missingTokenBody, 100000000000, true⟩,
        [.stat tokenFilename, .readFile "credentials.json", .httpDo (tokenRequest "creds"),
          .writeFile tokenFilename missingTokenBody]⟩ :=
  ⟨rfl, rfl, rfl⟩

/-- The requests of two runs of events, one after the other. -/
theorem upstreamRequests_append (a b : List Event) :
    upstreamRequests (a ++ b) = upstreamRequests a ++ upstreamRequests b := by
  induction a with
  | nil => rfl
  | cons ev a ih =>
    cases ev <;> simp [upstreamRequests, ih]

/-- Every call performs at least one external operation. -/
theorem getJapanPostToken_events_ne_nil (env : Env) (file : Option File) :
    (getJapanPostToken env file).events ≠ [] := by
  rcases hc : cachedToken env file with ⟨tok, evs⟩
  cases tok with
  | some token =>
    rw [getJapanPostToken_of_cached env file token evs hc]
    intro h
    simp only at h
    subst h
    unfold cachedToken at hc
    split at hc
    · cases hc
    · split_ifs at hc
      · split at hc
        · split_ifs at hc <;> cases hc
        · cases hc
      · cases hc
  | none =>
    obtain ⟨rest, h⟩ := getJapanPostToken_events_of_miss env file evs hc
    rw [h]
    simp

/-- The handler on a GET request whose search code is rejected. -/
theorem SearchCodeHandler_invalid (env : Env) (r : Request) (file : Option File)
    (hget : r.Method = "GET") (hbad : validSearchKey (searchCodeOf r) = false) :
    SearchCodeHandler env r file = ⟨corsHeader, 400, "", file, []⟩ := by
  unfold SearchCodeHandler
  simp [hget, MatchString_searchCodePattern, hbad]

/-- The handler on a GET request whose search code is accepted. -/
theorem SearchCodeHandler_valid (env : Env) (r : Request) (file : Option File)
    (hget : r.Method = "GET") (hok : validSearchKey (searchCodeOf r) = true) :
    SearchCodeHandler env r file =
      match (getJapanPostToken env file).err with
      | some _ => ⟨corsHeader, 500, "", (getJapanPostToken env file).tokenFile,
          (getJapanPostToken env file).events⟩
      | none =>
        match env.newRequest "GET"
          (lookupRequest (searchCodeOf r) (getJapanPostToken env file).token).URL with
        | some _ => ⟨corsHeader, 500, "", (getJapanPostToken env file).tokenFile,
            (getJapanPostToken env file).events⟩
        | none =>
          match env.clientDo
            (lookupRequest (searchCodeOf r) (getJapanPostToken env file).token) with
          | .error _ => ⟨corsHeader, 500, "", (getJapanPostToken env file).tokenFile,
              (getJapanPostToken env file).events ++
                [.httpDo (lookupRequest (searchCodeOf r) (getJapanPostToken env file).token)]⟩
          | .ok resp =>
            ⟨Header.Set corsHeader "Content-Type" "application/json", resp.StatusCode,
              resp.Body, (getJapanPostToken env file).tokenFile,
              (getJapanPostToken env file).events ++
                [.httpDo (lookupRequest (searchCodeOf r) (getJapanPostToken env file).token)]⟩ := by
  unfold SearchCodeHandler
  simp [hget, MatchString_searchCodePattern, hok]

/-- C7. On a GET request the search code (the first `search_code` query value
when there is one, the URL path without its leading slash otherwise) passes
the check `^\w{3,7}$` of the handler exactly when it matches the specified
pattern `^[A-Za-z0-9_]{3,7}$`.  A matching code reaches the token lookup, and
the lookup request for that code is sent once a token is obtained and the
request is built; any other code is answered 400 with no token lookup and no
request.  `abc` and `abcdefg` pass, `ab` and `abcdefgh` do not. -/
theorem SearchCodeHandler_validation (env : Env) (r : Request) (file : Option File)
    (hget : r.Method = "GET") :
    MatchString searchCodePattern (searchCodeOf r) = validSearchKey (searchCodeOf r) ∧
    (validSearchKey (searchCodeOf r) = true →
      (getJapanPostToken env file).events <+: (SearchCodeHandler env r file).events ∧
      (SearchCodeHandler env r file).tokenFile = (getJapanPostToken env file).tokenFile ∧
      ((getJapanPostToken env file).err = none →
        env.newRequest "GET"
          (lookupRequest (searchCodeOf r) (getJapanPostToken env file).token).URL = none →
        upstreamRequests (SearchCodeHandler env r file).events =
          upstreamRequests (getJapanPostToken env file).events ++
            [lookupRequest (searchCodeOf r) (getJapanPostToken env file).token])) ∧
    (validSearchKey (searchCodeOf r) = false →
      SearchCodeHandler env r file = ⟨corsHeader, 400, "", file, []⟩) ∧
    ((SearchCodeHandler env r file).events ≠ [] ↔ validSearchKey (searchCodeOf r) = true) ∧
    MatchString searchCodePattern "abc" = true ∧
    MatchString searchCodePattern "abcdefg" = true ∧
    MatchString searchCodePattern "ab" = false ∧
    MatchString searchCodePattern "abcdefgh" = false := by
  have hpre : validSearchKey (searchCodeOf r) = true →
      (getJapanPostToken env file).events <+: (SearchCodeHandler env r file).events ∧
      (SearchCodeHandler env r file).tokenFile = (getJapanPostToken env file).tokenFile ∧
      ((getJapanPostToken env file).err = none →
        env.newRequest "GET"
          (lookupRequest (searchCodeOf r) (getJapanPostToken env file).token).URL = none →
        upstreamRequests (SearchCodeHandler env r file).events =
          upstreamRequests (getJapanPostToken env file).events ++
            [lookupRequest (searchCodeOf r) (getJapanPostToken env file).token]) := by
    intro hok
    rw [SearchCodeHandler_valid env r file hget hok]
    refine ⟨?_, ?_, ?_⟩
    · repeat' split
      all_goals first
        | exact List.prefix_refl _
        | exact List.prefix_append _ _
    · repeat' split
      all_goals rfl
    · intro herr hnew
      rw [herr]
      simp only [hnew]
      split <;> simp [upstreamRequests_append, upstreamRequests]
  refine ⟨MatchString_searchCodePattern _, hpre, SearchCodeHandler_invalid env r file hget,
    ?_, by decide, by decide, by decide, by decide⟩
  constructor
  · intro hne
    by_contra hbad
    rw [Bool.not_eq_true] at hbad
    rw [SearchCodeHandler_invalid env r file hget hbad] at hne
    exact hne rfl
  · intro hok hnil
    have h := (hpre hok).1
    rw [hnil] at h
    exact getJapanPostToken_events_ne_nil env file (List.prefix_nil.mp h)

/-- Witness for C7: a GET request for `/abc`. -/
theorem SearchCodeHandler_validation_witness :
    searchCodeOf sampleRequest = "abc" ∧
    ((SearchCodeHandler sampleEnv sampleRequest none).events ≠ [] ↔
      validSearchKey (searchCodeOf sampleRequest) = true) :=
  ⟨rfl, (SearchCodeHandler_validation sampleEnv sampleRequest none rfl).2.2.2.1⟩

/-- C8. For a GET request with a valid search key, an obtained token and a
response of the lookup endpoint, the handler answers with the status code of
that response and with its body, unchanged, whatever the status code is. -/
theorem SearchCodeHandler_relay (env : Env) (r : Request) (file : Option File)
    (resp : HttpResponse) (hget : r.Method = "GET")
    (hok : validSearchKey (searchCodeOf r) = true)
    (htok : (getJapanPostToken env file).err = none)
    (hnew : env.newRequest "GET"
      (lookupRequest (searchCodeOf r) (getJapanPostToken env file).token).URL = none)
    (hdo : env.clientDo
      (lookupRequest (searchCodeOf r) (getJapanPostToken env file).token) = .ok resp) :
    (SearchCodeHandler env r file).status = resp.StatusCode ∧
      (SearchCodeHandler env r file).body = resp.Body := by
  rw [SearchCodeHandler_valid env r file hget hok, htok]
  simp only [hnew, hdo, and_self]

/-- Witness for C8: the lookup endpoint answers 404 with `not found`. -/
theorem SearchCodeHandler_relay_witness :
    (SearchCodeHandler sampleEnv sampleRequest none).status = 404 ∧
      (SearchCodeHandler sampleEnv sampleRequest none).body = "not found" :=
  SearchCodeHandler_relay sampleEnv sampleRequest none ⟨404, "not found", none⟩
    rfl (by decide) rfl rfl rfl

/-- C9. For a GET request with a valid search key, when `getJapanPostToken`
returns an error, or the lookup request cannot be built, or it cannot be
sent, the handler answers 500 with an empty body and only the CORS header
fields. -/
theorem SearchCodeHandler_failure (env : Env) (r : Request) (file : Option File)
    (hget : r.Method = "GET") (hok : validSearchKey (searchCodeOf r) = true)
    (hfail : (getJapanPostToken env file).err ≠ none ∨
      env.newRequest "GET"
        (lookupRequest (searchCodeOf r) (getJapanPostToken env file).token).URL ≠ none ∨
      ∃ e, env.clientDo
        (lookupRequest (searchCodeOf r) (getJapanPostToken env file).token) = .error e) :
    (SearchCodeHandler env r file).status = 500 ∧ (SearchCodeHandler env r file).body = "" ∧
      (SearchCodeHandler env r file).header = corsHeader := by
  rw [SearchCodeHandler_valid env r file hget hok]
  rcases hfail with h | h | ⟨e, h⟩
  · cases herr : (getJapanPostToken env file).err with
    | none => exact absurd herr h
    | some e => simp
  · cases herr : (getJapanPostToken env file).err with
    | some e => simp
    | none =>
      simp only
      cases hn : env.newRequest "GET"
          (lookupRequest (searchCodeOf r) (getJapanPostToken env file).token).URL with
      | none => exact absurd hn h
      | some e => simp
  · cases herr : (getJapanPostToken env file).err with
    | some e => simp
    | none =>
      simp only
      cases hn : env.newRequest "GET"
          (lookupRequest (searchCodeOf r) (getJapanPostToken env file).token).URL with
      | some e => simp
      | none => simp [h]

/-- Witness for C9: the credentials file cannot be read. -/
theorem SearchCodeHandler_failure_witness :
    (SearchCodeHandler noCredentialsEnv sampleRequest none).status = 500 ∧
      (SearchCodeHandler noCredentialsEnv sampleRequest none).body = "" ∧
      (SearchCodeHandler noCredentialsEnv sampleRequest none).header = corsHeader :=
  SearchCodeHandler_failure noCredentialsEnv sampleRequest none rfl (by decide)
    (Or.inl (by decide))

/-- C10 (amended). A call of `getJapanPostToken` that fails before the write
(credentials unreadable, request not built or not sent, status other than
200, body not read) leaves the token file exactly as it was.  A 200 response
whose body fails to parse is written first: the call returns the parse error
and leaves the token file holding that body. -/
theorem getJapanPostToken_error_file (env : Env) (file : Option File) :
    ((getJapanPostToken env file).err ≠ none →
      (∀ c, (getJapanPostToken env file).err ≠ some (.save c)) →
      (∀ c, (getJapanPostToken env file).err ≠ some (.parse c)) →
      (getJapanPostToken env file).tokenFile = file) ∧
    (∀ c, (getJapanPostToken env file).err = some (.parse c) →
      ∃ body readable, jsonUnmarshal body = .error c ∧
        Event.writeFile tokenFilename body ∈ (getJapanPostToken env file).events ∧
        (getJapanPostToken env file).tokenFile = some ⟨body, env.writeTime, readable⟩) := by
  unfold getJapanPostToken
  rcases cachedToken env file with ⟨tok, evs⟩
  cases tok with
  | some token => simp
  | none =>
    simp only
    cases env.credentials with
    | error c => simp
    | ok credentials =>
      simp only
      cases env.newRequest "POST" tokenURL with
      | some c => simp
      | none =>
        simp only
        cases env.clientDo (tokenRequest credentials) with
        | error c => simp
        | ok resp =>
          simp only
          split_ifs with hs
          · simp
          · cases resp.bodyErr with
            | some c => simp
            | none =>
              simp only
              cases hw : env.write with
              | ok =>
                simp only [WriteFile, hw]
                cases hj : jsonUnmarshal resp.Body with
                | error c2 =>
                  simp only [ne_eq, not_false_eq_true, forall_const, Option.some.injEq,
                    TokenError.parse.injEq, forall_eq', not_true_eq_false, false_implies,
                    true_and]
                  exact ⟨by simp, resp.Body, _, hj, by simp, rfl⟩
                | ok tr => simp
              | openFailed cause => simp [WriteFile, hw]
              | writeFailed cause n => simp [WriteFile, hw]

/-- Witness for C10 (amended): the credentials file cannot be read and no
token file appears. -/
theorem getJapanPostToken_error_file_witness :
    (getJapanPostToken noCredentialsEnv none).tokenFile = none :=
  (getJapanPostToken_error_file noCredentialsEnv none).1 (by decide)
    (fun c h => by cases h) (fun c h => by cases h)

/-- Counterexample to C10 as stated: there is no token file, the token
endpoint answers 200 with a body that is not JSON; the call returns the parse
error, and the token file now exists and holds that body. -/
theorem getJapanPostToken_error_file_counterexample :
    getJapanPostToken badBodyEnv none =
      ⟨"", some (.parse .malformed), some ⟨"not json", 100000000000, true⟩,
        [.stat tokenFilename, .readFile "credentials.json", .httpDo (tokenRequest "creds"),
          .writeFile tokenFilename "not json"]⟩ :=
  rfl

end DigitalAddress
